import Mathlib

/-!
Verification of the tool-orchestrated chat pipeline of the Maximo AI agent
(`src/app/server.mjs`: the agent HTTP server followed by the MCP broker
server).  The JavaScript is shallowly embedded: JSON-compatible runtime
values (plus `undefined`) are the inductive `JsValue`; truthiness, string
coercion, member access, `||` / `??` / optional chaining, `JSON.parse` and
`JSON.stringify` are modelled explicitly; the HTTP handlers are pure
functions from their inputs and a network oracle to a response together
with the ordered list of outbound network calls.
-/

/-- JavaScript runtime values that can occur in the modelled code paths:
all JSON values plus `undefined`.  Numbers are represented by their source
lexeme (a non-empty digit string possibly with sign / fraction / exponent);
no modelled code path depends on numeric arithmetic. -/
inductive JsValue where
  | undef : JsValue
  | null : JsValue
  | bool : Bool → JsValue
  | num : String → JsValue
  | str : String → JsValue
  | arr : List JsValue → JsValue
  | obj : List (String × JsValue) → JsValue

open JsValue

mutual

/-- Decidable equality on `JsValue` (written by hand: the deriving handler
does not support this nested inductive). -/
def decEqJs : (a b : JsValue) → Decidable (a = b)
  | .undef, .undef => .isTrue rfl
  | .undef, .null => .isFalse nofun
  | .undef, .bool _ => .isFalse nofun
  | .undef, .num _ => .isFalse nofun
  | .undef, .str _ => .isFalse nofun
  | .undef, .arr _ => .isFalse nofun
  | .undef, .obj _ => .isFalse nofun
  | .null, .undef => .isFalse nofun
  | .null, .null => .isTrue rfl
  | .null, .bool _ => .isFalse nofun
  | .null, .num _ => .isFalse nofun
  | .null, .str _ => .isFalse nofun
  | .null, .arr _ => .isFalse nofun
  | .null, .obj _ => .isFalse nofun
  | .bool _, .undef => .isFalse nofun
  | .bool _, .null => .isFalse nofun
  | .bool x, .bool y =>
      if h : x = y then .isTrue (by rw [h]) else .isFalse (by intro he; injection he; contradiction)
  | .bool _, .num _ => .isFalse nofun
  | .bool _, .str _ => .isFalse nofun
  | .bool _, .arr _ => .isFalse nofun
  | .bool _, .obj _ => .isFalse nofun
  | .num _, .undef => .isFalse nofun
  | .num _, .null => .isFalse nofun
  | .num _, .bool _ => .isFalse nofun
  | .num x, .num y =>
      if h : x = y then .isTrue (by rw [h]) else .isFalse (by intro he; injection he; contradiction)
  | .num _, .str _ => .isFalse nofun
  | .num _, .arr _ => .isFalse nofun
  | .num _, .obj _ => .isFalse nofun
  | .str _, .undef => .isFalse nofun
  | .str _, .null => .isFalse nofun
  | .str _, .bool _ => .isFalse nofun
  | .str _, .num _ => .isFalse nofun
  | .str x, .str y =>
      if h : x = y then .isTrue (by rw [h]) else .isFalse (by intro he; injection he; contradiction)
  | .str _, .arr _ => .isFalse nofun
  | .str _, .obj _ => .isFalse nofun
  | .arr _, .undef => .isFalse nofun
  | .arr _, .null => .isFalse nofun
  | .arr _, .bool _ => .isFalse nofun
  | .arr _, .num _ => .isFalse nofun
  | .arr _, .str _ => .isFalse nofun
  | .arr x, .arr y =>
      match decEqJsList x y with
      | .isTrue h => .isTrue (by rw [h])
      | .isFalse h => .isFalse (by intro he; injection he; contradiction)
  | .arr _, .obj _ => .isFalse nofun
  | .obj _, .undef => .isFalse nofun
  | .obj _, .null => .isFalse nofun
  | .obj _, .bool _ => .isFalse nofun
  | .obj _, .num _ => .isFalse nofun
  | .obj _, .str _ => .isFalse nofun
  | .obj _, .arr _ => .isFalse nofun
  | .obj x, .obj y =>
      match decEqJsPairs x y with
      | .isTrue h => .isTrue (by rw [h])
      | .isFalse h => .isFalse (by intro he; injection he; contradiction)

/-- Decidable equality on lists of `JsValue`. -/
def decEqJsList : (a b : List JsValue) → Decidable (a = b)
  | [], [] => .isTrue rfl
  | [], _ :: _ => .isFalse nofun
  | _ :: _, [] => .isFalse nofun
  | x :: xs, y :: ys =>
      match decEqJs x y with
      | .isFalse h => .isFalse (by intro he; injection he; contradiction)
      | .isTrue h1 =>
        match decEqJsList xs ys with
        | .isTrue h2 => .isTrue (by rw [h1, h2])
        | .isFalse h => .isFalse (by intro he; injection he; contradiction)

/-- Decidable equality on object field lists. -/
def decEqJsPairs : (a b : List (String × JsValue)) → Decidable (a = b)
  | [], [] => .isTrue rfl
  | [], _ :: _ => .isFalse nofun
  | _ :: _, [] => .isFalse nofun
  | (k1, v1) :: xs, (k2, v2) :: ys =>
      if hk : k1 = k2 then
        match decEqJs v1 v2 with
        | .isFalse h => .isFalse (by intro he; injection he with h1 h2; rw [hk] at h1; injection h1; contradiction)
        | .isTrue h1 =>
          match decEqJsPairs xs ys with
          | .isTrue h2 => .isTrue (by rw [hk, h1, h2])
          | .isFalse h => .isFalse (by intro he; injection he; contradiction)
      else .isFalse (by intro he; injection he with h1 h2; rw [Prod.ext_iff] at h1; exact hk h1.1)

end

instance : DecidableEq JsValue := decEqJs

instance {ε α : Type} [DecidableEq ε] [DecidableEq α] : DecidableEq (Except ε α) := fun a b =>
  match a, b with
  | .ok x, .ok y =>
      if h : x = y then .isTrue (by rw [h])
      else .isFalse (by intro he; injection he; contradiction)
  | .error x, .error y =>
      if h : x = y then .isTrue (by rw [h])
      else .isFalse (by intro he; injection he; contradiction)
  | .ok _, .error _ => .isFalse nofun
  | .error _, .ok _ => .isFalse nofun

/-- A value is nullish (`null` or `undefined`), the guard of `?.` and `??`. -/
def jsNullish : JsValue → Bool
  | .undef => true
  | .null => true
  | _ => false

/-- Whether a numeric lexeme denotes zero (all mantissa digits are 0). -/
def numLexIsZero (s : String) : Bool :=
  let mantissa := s.data.takeWhile fun c => c ≠ 'e' ∧ c ≠ 'E'
  ((mantissa.filter fun c => c.isDigit).all fun c => c = '0') &&
    (mantissa.any fun c => c.isDigit)

/-- JavaScript truthiness of a value. -/
def jsTruthy : JsValue → Bool
  | .undef => false
  | .null => false
  | .bool b => b
  | .num l => !(numLexIsZero l)
  | .str s => s ≠ ""
  | .arr _ => true
  | .obj _ => true

/-- `typeof v === "object"` (true for objects, arrays and `null`). -/
def jsTypeofObj : JsValue → Bool
  | .obj _ => true
  | .arr _ => true
  | .null => true
  | _ => false

mutual

/-- JavaScript `String(v)` coercion. -/
def jsToString : JsValue → String
  | .undef => "undefined"
  | .null => "null"
  | .bool b => if b then "true" else "false"
  | .num l => l
  | .str s => s
  | .arr l => String.intercalate "," (jsToStringElems l)
  | .obj _ => "[object Object]"

/-- Elements of `Array.prototype.toString` (join by comma, nullish → ""). -/
def jsToStringElems : List JsValue → List String
  | [] => []
  | .undef :: r => "" :: jsToStringElems r
  | .null :: r => "" :: jsToStringElems r
  | v :: r => jsToString v :: jsToStringElems r

end

/-- Last-writer-wins association-list lookup used for object members
(the JSON parser below keeps keys unique, first occurrence position,
last occurrence value, as `JSON.parse` does). -/
def objLookup (l : List (String × JsValue)) (k : String) : Option JsValue :=
  (l.find? fun p => p.1 = k).map Prod.snd

/-- Kernel-computable digit-string parser (used for array index keys). -/
def strToNatQ (s : String) : Option Nat :=
  if s.data ≠ [] ∧ s.data.all Char.isDigit then
    some (s.data.foldl (fun acc c => acc * 10 + (c.toNat - 48)) 0)
  else none

/-- Member access `v[k]`, total on non-nullish bases; on nullish bases the
real code would throw, which call sites model separately with `jsGetE`.
Arrays expose `length` and numeric indices; strings expose `length` and
their characters; other primitives have no own members. -/
def jsGetU (v : JsValue) (k : String) : JsValue :=
  match v with
  | .obj l => (objLookup l k).getD .undef
  | .arr l =>
      if k = "length" then .num (toString l.length)
      else match strToNatQ k with
        | some i => (l.get? i).getD .undef
        | none => .undef
  | .str s =>
      if k = "length" then .num (toString s.length)
      else match strToNatQ k with
        | some i => match s.data.get? i with
          | some c => .str (String.singleton c)
          | none => .undef
        | none => .undef
  | _ => (.undef)

/-- Member access `v.k` on a possibly-nullish base: throws (`TypeError`)
when the base is nullish, mirroring an unguarded access in the source. -/
def jsGetE (v : JsValue) (k : String) : Except String JsValue :=
  if jsNullish v then .error "TypeError" else .ok (jsGetU v k)

/-- Optional chaining `v?.k`. -/
def jsChain1 (v : JsValue) (k : String) : JsValue :=
  if jsNullish v then .undef else jsGetU v k

/-- Optional chaining index `v?.[i]`. -/
def jsIdxChain (v : JsValue) (i : Nat) : JsValue :=
  if jsNullish v then .undef else jsGetU v (toString i)

/-- JavaScript `a || b`. -/
def jsOr (a b : JsValue) : JsValue := if jsTruthy a then a else b

/-- JavaScript `a ?? b`. -/
def jsNullishOr (a b : JsValue) : JsValue := if jsNullish a then b else a

/-- ASCII lower-casing of a character (model of `toLowerCase`). -/
def toLowerChar (c : Char) : Char :=
  if 'A' ≤ c ∧ c ≤ 'Z' then Char.ofNat (c.toNat + 32) else c

/-- ASCII upper-casing of a character (model of `toUpperCase`). -/
def toUpperChar (c : Char) : Char :=
  if 'a' ≤ c ∧ c ≤ 'z' then Char.ofNat (c.toNat - 32) else c

/-- Model of `String.prototype.toLowerCase` (ASCII range). -/
def jsToLower (s : String) : String := ⟨s.data.map toLowerChar⟩

/-- Model of `String.prototype.toUpperCase` (ASCII range). -/
def jsToUpper (s : String) : String := ⟨s.data.map toUpperChar⟩

/-- JavaScript whitespace recognised by `trim` (ASCII part). -/
def isJsWs (c : Char) : Bool :=
  c = ' ' ∨ c = '\t' ∨ c = '\n' ∨ c = '\r' ∨ c = '\x0b' ∨ c = '\x0c'

/-- Drop trailing characters satisfying `isJsWs`. -/
def trimRightList (l : List Char) : List Char :=
  (l.reverse.dropWhile isJsWs).reverse

/-- Trim both ends (model of `String.prototype.trim`). -/
def jsTrimList (l : List Char) : List Char :=
  trimRightList (l.dropWhile isJsWs)

/-- Model of `String.prototype.trim`. -/
def jsTrim (s : String) : String := ⟨jsTrimList s.data⟩

/-- Whether `s` ends with `suf` (kernel-computable `endsWith`). -/
def strEndsWith (s suf : String) : Bool :=
  suf.data = s.data.drop (s.data.length - suf.data.length)

/-- Drop the last `n` characters (kernel-computable `dropRight`). -/
def strDropRight (s : String) (n : Nat) : String :=
  ⟨s.data.take (s.data.length - n)⟩

/-- Model of `.replace(/\/$/, "")`: strip one trailing slash. -/
def stripTrailingSlash (s : String) : String :=
  if strEndsWith s "/" then strDropRight s 1 else s

/-- Model of `.slice(0, n)`. -/
def jsSlice0 (s : String) (n : Nat) : String := ⟨s.data.take n⟩

/-- Insert a field into an object field list with JavaScript property
semantics: an existing key keeps its position and takes the new value, a
new key is appended. -/
def objInsert : List (String × JsValue) → String → JsValue → List (String × JsValue)
  | [], k, v => [(k, v)]
  | (k0, v0) :: r, k, v =>
    if k0 = k then (k, v) :: r else (k0, v0) :: objInsert r k v

/-- The left-brace character, written via its code point. -/
def lbraceChar : Char := Char.ofNat 123

/-- The right-brace character, written via its code point. -/
def rbraceChar : Char := Char.ofNat 125

/-- JSON insignificant whitespace. -/
def skipJsonWs (l : List Char) : List Char :=
  l.dropWhile fun c => c = ' ' ∨ c = '\t' ∨ c = '\n' ∨ c = '\r'

/-- Value of a hex digit. -/
def hexVal (c : Char) : Option Nat :=
  if '0' ≤ c ∧ c ≤ '9' then some (c.toNat - 48)
  else if 'a' ≤ c ∧ c ≤ 'f' then some (c.toNat - 87)
  else if 'A' ≤ c ∧ c ≤ 'F' then some (c.toNat - 55)
  else none

/-- Parse the body of a JSON string literal (after the opening quote),
accumulating decoded characters in reverse. -/
def parseJsonStringAux : List Char → List Char → Option (String × List Char)
  | acc, '"' :: r => some (⟨acc.reverse⟩, r)
  | acc, '\\' :: e :: r =>
    if e = '"' then parseJsonStringAux ('"' :: acc) r
    else if e = '\\' then parseJsonStringAux ('\\' :: acc) r
    else if e = '/' then parseJsonStringAux ('/' :: acc) r
    else if e = 'b' then parseJsonStringAux ('\x08' :: acc) r
    else if e = 'f' then parseJsonStringAux ('\x0c' :: acc) r
    else if e = 'n' then parseJsonStringAux ('\n' :: acc) r
    else if e = 'r' then parseJsonStringAux ('\r' :: acc) r
    else if e = 't' then parseJsonStringAux ('\t' :: acc) r
    else if e = 'u' then
      match r with
      | a :: b :: c :: d :: r2 =>
        match hexVal a, hexVal b, hexVal c, hexVal d with
        | some x, some y, some z, some w =>
            parseJsonStringAux (Char.ofNat (((x * 16 + y) * 16 + z) * 16 + w) :: acc) r2
        | _, _, _, _ => none
      | _ => none
    else none
  | acc, c :: r => if c.toNat < 32 then none else parseJsonStringAux (c :: acc) r
  | _, [] => none

/-- Characters that can occur in a JSON number lexeme. -/
def isNumLexChar (c : Char) : Bool :=
  c.isDigit ∨ c = '-' ∨ c = '+' ∨ c = '.' ∨ c = 'e' ∨ c = 'E'

/-- Consume the integer part of a JSON number. -/
def chompInt : List Char → Option (List Char)
  | '0' :: r => some r
  | c :: r => if c.isDigit then some (r.dropWhile Char.isDigit) else none
  | [] => none

/-- Consume an optional fraction part. -/
def chompFrac : List Char → Option (List Char)
  | '.' :: r =>
    match r with
    | c :: _ => if c.isDigit then some (r.dropWhile Char.isDigit) else none
    | [] => none
  | l => some l

/-- Consume an optional exponent part. -/
def chompExp : List Char → Option (List Char)
  | c :: r =>
    if c = 'e' ∨ c = 'E' then
      match r with
      | s :: r2 =>
        if s = '+' ∨ s = '-' then
          match r2 with
          | d :: _ => if d.isDigit then some (r2.dropWhile Char.isDigit) else none
          | [] => none
        else if s.isDigit then some (r.dropWhile Char.isDigit) else none
      | [] => none
    else some (c :: r)
  | [] => some []

/-- Whether a lexeme is a valid JSON number. -/
def jsonNumOk (l : List Char) : Bool :=
  let l1 := match l with
    | '-' :: r => r
    | r => r
  match chompInt l1 with
  | none => false
  | some r2 =>
    match chompFrac r2 with
    | none => false
    | some r3 =>
      match chompExp r3 with
      | none => false
      | some r4 => r4 = []

/-- Parse a JSON number, keeping its lexeme. -/
def parseJsonNumber (l : List Char) : Option (String × List Char) :=
  let lex := l.takeWhile isNumLexChar
  if lex ≠ [] ∧ jsonNumOk lex then some (⟨lex⟩, l.drop lex.length) else none

mutual

/-- Fuel-indexed JSON value parser (model of `JSON.parse` grammar).  The
fuel strictly decreases on every nested call; `jsonParse` supplies more
fuel than any input can consume. -/
def parseJsonVal : Nat → List Char → Option (JsValue × List Char)
  | 0, _ => none
  | fuel + 1, l =>
    match skipJsonWs l with
    | 'n' :: 'u' :: 'l' :: 'l' :: r => some (.null, r)
    | 't' :: 'r' :: 'u' :: 'e' :: r => some (.bool true, r)
    | 'f' :: 'a' :: 'l' :: 's' :: 'e' :: r => some (.bool false, r)
    | '"' :: r =>
      match parseJsonStringAux [] r with
      | some (s, r2) => some (.str s, r2)
      | none => none
    | c :: r =>
      if c = lbraceChar then
        match skipJsonWs r with
        | c2 :: r2 =>
          if c2 = rbraceChar then some (.obj [], r2)
          else parseJsonObjFields fuel (c2 :: r2) []
        | [] => none
      else if c = '[' then
        match skipJsonWs r with
        | ']' :: r2 => some (.arr [], r2)
        | l2 => parseJsonArrElems fuel l2 []
      else
        match parseJsonNumber (c :: r) with
        | some (lex, r2) => some (.num lex, r2)
        | none => none
    | [] => none

/-- Parse the comma-separated elements of a non-empty JSON array. -/
def parseJsonArrElems : Nat → List Char → List JsValue → Option (JsValue × List Char)
  | 0, _, _ => none
  | fuel + 1, l, acc =>
    match parseJsonVal fuel l with
    | none => none
    | some (v, r) =>
      match skipJsonWs r with
      | ',' :: r2 => parseJsonArrElems fuel r2 (v :: acc)
      | ']' :: r2 => some (.arr (v :: acc).reverse, r2)
      | _ => none

/-- Parse the fields of a non-empty JSON object, with duplicate keys
resolved as `JSON.parse` does. -/
def parseJsonObjFields : Nat → List Char → List (String × JsValue) →
    Option (JsValue × List Char)
  | 0, _, _ => none
  | fuel + 1, l, acc =>
    match skipJsonWs l with
    | '"' :: r =>
      match parseJsonStringAux [] r with
      | none => none
      | some (k, r2) =>
        match skipJsonWs r2 with
        | ':' :: r3 =>
          match parseJsonVal fuel r3 with
          | none => none
          | some (v, r4) =>
            match skipJsonWs r4 with
            | ',' :: r5 => parseJsonObjFields fuel r5 (objInsert acc k v)
            | c :: r5 => if c = rbraceChar then some (.obj (objInsert acc k v), r5) else none
            | [] => none
        | _ => none
    | _ => none

end

/-- Model of `JSON.parse`: parse a complete value, requiring only
whitespace to remain.  `none` models a thrown `SyntaxError`. -/
def jsonParse (s : String) : Option JsValue :=
  match parseJsonVal (2 * s.length + 4) s.data with
  | some (v, r) => if skipJsonWs r = [] then some v else none
  | none => none

/-- Two hex digits of a byte below 32 (for control-character escapes). -/
def hexByte (n : Nat) : String :=
  let d := fun m => if m < 10 then Char.ofNat (48 + m) else Char.ofNat (87 + m - 10)
  ⟨[d (n / 16), d (n % 16)]⟩

/-- Escape one character for a JSON string literal. -/
def jsonEscapeChar (c : Char) : String :=
  if c = '"' then "\\\""
  else if c = '\\' then "\\\\"
  else if c = '\n' then "\\n"
  else if c = '\r' then "\\r"
  else if c = '\t' then "\\t"
  else if c = '\x08' then "\\b"
  else if c = '\x0c' then "\\f"
  else if c.toNat < 32 then "\\u00" ++ hexByte c.toNat
  else String.singleton c

/-- Quote a string as a JSON string literal. -/
def jsonQuote (s : String) : String :=
  "\"" ++ String.join (s.data.map jsonEscapeChar) ++ "\""

/-- The left-brace as a string, via its code point. -/
def lbraceStr : String := String.singleton lbraceChar

/-- The right-brace as a string, via its code point. -/
def rbraceStr : String := String.singleton rbraceChar

mutual

/-- Model of `JSON.stringify` on parsed JSON values (the modelled code
never stringifies `undefined`; that constructor is mapped to `null`). -/
def jsonStringify : JsValue → String
  | .undef => "null"
  | .null => "null"
  | .bool b => if b then "true" else "false"
  | .num l => l
  | .str s => jsonQuote s
  | .arr l => "[" ++ String.intercalate "," (jsonStringifyList l) ++ "]"
  | .obj l => lbraceStr ++ String.intercalate "," (jsonStringifyFields l) ++ rbraceStr

/-- Stringify array elements. -/
def jsonStringifyList : List JsValue → List String
  | [] => []
  | v :: r => jsonStringify v :: jsonStringifyList r

/-- Stringify object fields. -/
def jsonStringifyFields : List (String × JsValue) → List String
  | [] => []
  | (k, v) :: r => (jsonQuote k ++ ":" ++ jsonStringify v) :: jsonStringifyFields r

end

/-!
### Agent server (`src/app/server.mjs`, first document)
-/

/-- The open object schema used as the default `parameters`
(`src/app/server.mjs` lines 135 and 149). -/
def openSchema : JsValue :=
  obj [("type", str "object"), ("properties", obj []), ("additionalProperties", bool true)]

/-- One iteration of the `toOpenAITools` loop (`src/app/server.mjs`
lines 126-152): `none` models `continue` (record dropped). -/
def convertTool (t : JsValue) : Option JsValue :=
  if jsTruthy t ∧ jsGetU t "type" = str "function" ∧ jsTruthy (jsGetU t "function") ∧
      jsTruthy (jsGetU (jsGetU t "function") "name") then
    some (obj [("type", str "function"), ("function", obj [
      ("name", str (jsToString (jsGetU (jsGetU t "function") "name"))),
      ("description", str (jsToString (jsOr (jsGetU (jsGetU t "function") "description") (str "")))),
      ("parameters",
        if jsTruthy (jsGetU (jsGetU t "function") "parameters") ∧
            jsTypeofObj (jsGetU (jsGetU t "function") "parameters") then
          jsGetU (jsGetU t "function") "parameters"
        else openSchema)])])
  else if jsTrim (jsToString (jsOr (jsChain1 t "name") (str ""))) = "" then none
  else
    some (obj [("type", str "function"), ("function", obj [
      ("name", str (jsTrim (jsToString (jsOr (jsChain1 t "name") (str ""))))),
      ("description", str (jsToString (jsOr (jsChain1 t "description") (str "")))),
      ("parameters",
        if jsTruthy (jsChain1 t "inputSchema") ∧ jsTypeofObj (jsChain1 t "inputSchema") then
          jsChain1 t "inputSchema"
        else openSchema)])])

/-- `toOpenAITools` (`src/app/server.mjs` lines 123-154): the loop with
`continue` is exactly a `filterMap`, which preserves the relative order of
kept records. -/
def toOpenAITools (rawTools : JsValue) : List JsValue :=
  (match rawTools with | .arr l => l | _ => []).filterMap convertTool

/-- Resolved provider configuration (`src/app/server.mjs` lines 156-171). -/
structure ProviderCfg where
  provider : String
  key : JsValue
  base : String
deriving DecidableEq

/-- `providerConfig` (`src/app/server.mjs` lines 156-171).  The only way it
can throw is the unguarded `s.ai` access on a nullish settings value. -/
def providerConfig (provider : String) (s : JsValue) : Except String ProviderCfg := do
  let p := jsToLower (if provider = "" then "openai" else provider)
  let ai := jsOr (← jsGetE s "ai") (obj [])
  let key : JsValue :=
    if p = "openai" then jsOr (jsGetU ai "openai_key") (str "")
    else if p = "mistral" then jsOr (jsGetU ai "mistral_key") (str "")
    else if p = "deepseek" then jsOr (jsGetU ai "deepseek_key") (str "")
    else str ""
  let base0 : JsValue :=
    if p = "openai" then jsOr (jsGetU ai "openai_base") (str "https://api.openai.com")
    else if p = "mistral" then jsOr (jsGetU ai "mistral_base") (str "https://api.mistral.ai")
    else if p = "deepseek" then jsOr (jsGetU ai "deepseek_base") (str "https://api.deepseek.com")
    else str ""
  return { provider := p, key := key,
           base := stripTrailingSlash (jsTrim (jsToString (jsOr base0 (str "")))) }

/-- `normMaximoBase` (`src/app/server.mjs` lines 204-209; the identical
function also appears in the MCP server document, lines 451-456). -/
def normMaximoBase (u : JsValue) : String :=
  let s := stripTrailingSlash (jsTrim (jsToString (jsOr u (str ""))))
  if s = "" then "" else if strEndsWith s "/maximo" then s else s ++ "/maximo"

/-- `maximoApiBase` (`src/app/server.mjs` lines 210-213 and 457-460). -/
def maximoApiBase (u : JsValue) : String :=
  let b := normMaximoBase u
  if b = "" then ""
  else if strEndsWith b "/maximo" then strDropRight b 7 ++ "/maximo/api" else b

/-- The character class `[a-zA-Z0-9_\.]` of the `normalizeOrderBy` regex. -/
def isFieldChar (c : Char) : Bool :=
  ('a' ≤ c ∧ c ≤ 'z') ∨ ('A' ≤ c ∧ c ≤ 'Z') ∨ ('0' ≤ c ∧ c ≤ '9') ∨ c = '_' ∨ c = '.'

/-- Matcher for `/^([a-zA-Z0-9_\.]+)\s+(asc|desc)$/i` on an already
trimmed token: field characters, then whitespace, then a case variant of
`asc` or `desc`; the boolean is true for `desc`. -/
def parseFieldDir (l : List Char) : Option (List Char × Bool) :=
  let fld := l.takeWhile isFieldChar
  let rest := l.dropWhile isFieldChar
  if fld = [] then none
  else
    let ws := rest.takeWhile isJsWs
    let tl := rest.dropWhile isJsWs
    if ws = [] then none
    else
      let low := tl.map toLowerChar
      if low = "asc".data then some (fld, false)
      else if low = "desc".data then some (fld, true)
      else none

/-- `normalizeOrderBy` on the character list (`src/app/server.mjs`
lines 214-221). -/
def normalizeOrderByList (l : List Char) : List Char :=
  let s := jsTrimList l
  match s with
  | [] => []
  | c :: _ =>
    if c = '+' ∨ c = '-' then s
    else
      match parseFieldDir s with
      | some (fld, true) => '-' :: fld
      | some (fld, false) => '+' :: fld
      | none => '+' :: s

/-- `normalizeOrderBy` (`src/app/server.mjs` lines 214-221). -/
def normalizeOrderBy (orderBy : JsValue) : String :=
  ⟨normalizeOrderByList (jsToString (jsOr orderBy (str ""))).data⟩

/-- An HTTP response produced by a handler (`json(res, status, obj)`). -/
structure HttpResp where
  status : Nat
  body : JsValue
deriving DecidableEq

/-- The decoded outcome of one `fetch` as seen by `fetchJson`
(`src/app/server.mjs` lines 173-179): transport flag, status and body
text; the `json` field of the source is `jsonParse` of the text. -/
structure FetchOut where
  ok : Bool
  status : Nat
  text : String
deriving DecidableEq

/-- Body of a chat-completions request (`src/app/server.mjs`
lines 183-191).  `tools = some l` implies the source also sets
`tool_choice: "auto"`. -/
structure ComplBody where
  model : String
  temperature : JsValue
  messages : List JsValue
  tools : Option (List JsValue)
deriving DecidableEq

/-- One outbound network call of the modelled handlers, in issue order. -/
inductive NetCall where
  | toolsFetch (url : String)
  | completion (url : String) (auth : String) (body : ComplBody)
  | brokerInvoke (url : String) (name : JsValue) (args : JsValue) (tenant : String)
  | backendGet (url : String) (apikey : JsValue)
deriving DecidableEq

/-- Build a JSON HTTP response. -/
def jsonResp (status : Nat) (body : JsValue) : HttpResp := ⟨status, body⟩

/-- The catch-all 500 response of the agent server (`src/app/server.mjs`
lines 400-402). -/
def serverError (msg : String) : HttpResp :=
  jsonResp 500 (obj [("error", str "server_error"), ("detail", str msg)])

/-- Split a numeric string at the exponent marker. -/
def splitExp (l : List Char) : List Char × Option (List Char) :=
  match l.span fun c => c ≠ 'e' ∧ c ≠ 'E' with
  | (m, []) => (m, none)
  | (m, _ :: e) => (m, some e)

/-- Valid exponent for a JavaScript numeric string. -/
def expPartOk : Option (List Char) → Bool
  | none => true
  | some e =>
    let e2 := match e with
      | c :: r => if c = '+' ∨ c = '-' then r else c :: r
      | [] => []
    e2 ≠ [] ∧ e2.all Char.isDigit

/-- Valid mantissa for a JavaScript numeric string
(`digits`, `digits.digits?`, or `.digits`). -/
def mantissaOk (m : List Char) : Bool :=
  match m with
  | '.' :: r => r ≠ [] ∧ r.all Char.isDigit
  | _ =>
    match m.span Char.isDigit with
    | (d, []) => d ≠ []
    | (d, '.' :: f) => d ≠ [] ∧ f.all Char.isDigit
    | _ => false

/-- Whether a trimmed string is a decimal JavaScript numeric literal
(hex and `Infinity` forms are out of modelled scope and map to `none`,
i.e. to the non-finite default branch). -/
def jsNumericStrOk (l : List Char) : Bool :=
  let l1 := match l with
    | c :: r => if c = '+' ∨ c = '-' then r else c :: r
    | [] => []
  let p := splitExp l1
  mantissaOk p.1 && expPartOk p.2

/-- Model of `Number(v)` restricted to what the handlers need: `some lex`
is a finite number with that lexeme, `none` is `NaN`. -/
def jsNumberLex : JsValue → Option String
  | .undef => none
  | .null => some "0"
  | .bool b => some (if b then "1" else "0")
  | .num l => some l
  | .str s =>
      let t := jsTrim s
      if t = "" then some "0" else if jsNumericStrOk t.data then some t else none
  | .arr l =>
      let t := jsTrim (jsToString (.arr l))
      if t = "" then some "0" else if jsNumericStrOk t.data then some t else none
  | .obj _ => none

/-- `Number.isFinite(Number(temperature)) ? Number(temperature) : 0.7`
(`src/app/server.mjs` line 185). -/
def jsNumberOr (temperature : JsValue) : JsValue :=
  match jsNumberLex temperature with
  | some lex => num lex
  | none => num "0.7"

/-- The truncated upstream-failure message of `openaiCompatChat`
(`src/app/server.mjs` line 198). -/
def aiFailMsg (r : FetchOut) : String :=
  "AI request failed (" ++ toString r.status ++ "). " ++ jsSlice0 r.text 300

/-- `openaiCompatChat` (`src/app/server.mjs` lines 181-201) as a pure
function of the would-be response `r`: returns the calls it issues (none
when the credential is empty, the single completion request otherwise)
and either the decoded body or the thrown error message. -/
def openaiCompatChat (cfg : ProviderCfg) (model : String) (temperature : JsValue)
    (messages : List JsValue) (tools : Option (List JsValue)) (r : FetchOut) :
    List NetCall × Except String JsValue :=
  if jsTruthy cfg.key = false then ([], .error ("missing_api_key:" ++ cfg.provider))
  else
    let body : ComplBody :=
      { model := if model = "" then "gpt-4o-mini" else model
        temperature := jsNumberOr temperature
        messages := messages
        tools := match tools with
          | some l => if l = [] then none else some l
          | none => none }
    let call := NetCall.completion (cfg.base ++ "/v1/chat/completions")
      ("Bearer " ++ jsToString cfg.key) body
    match jsonParse r.text with
    | some j => if r.ok ∧ jsTruthy j then ([call], .ok j) else ([call], .error (aiFailMsg r))
    | none => ([call], .error (aiFailMsg r))

/-- A chat message object literal (`src/app/server.mjs` lines 311-312). -/
def mkMsg (role content : String) : JsValue :=
  obj [("role", str role), ("content", str content)]

/-- Everything the chat handler computes before any network call
(`src/app/server.mjs` lines 300-316). -/
structure ChatPrelude where
  cfg : ProviderCfg
  provider : String
  model : String
  temperature : JsValue
  system : String
  textIn : String
  messages : List JsValue
  mcpUrl : String
  enableTools : Bool
  tenant : String
deriving DecidableEq

/-- The pre-network part of the `/api/agent/chat` handler
(`src/app/server.mjs` lines 300-316), in source order: provider
extraction, provider config (its `s.ai` access can throw), the
missing-credential early return, body field extraction, the
missing-text early return, message building and MCP settings. -/
def chatPrelude (mcpDefault : String) (s parsed : JsValue) : Except HttpResp ChatPrelude := do
  let pv ← (jsGetE parsed "provider").mapError serverError
  let provider := jsToLower (jsToString (jsOr pv (str "openai")))
  let cfg ← (providerConfig provider s).mapError serverError
  if jsTruthy cfg.key = false then
    throw (jsonResp 400 (obj [("error", str "missing_api_key"),
      ("detail", str ("Missing " ++ provider ++ " API key"))]))
  let mv ← (jsGetE parsed "model").mapError serverError
  let model := jsTrim (jsToString (jsOr mv (str "")))
  let tv ← (jsGetE parsed "temperature").mapError serverError
  let temperature := jsNullishOr tv (num "0.7")
  let sv ← (jsGetE parsed "system").mapError serverError
  let system := jsTrim (jsToString (jsOr sv (str "")))
  let xv ← (jsGetE parsed "text").mapError serverError
  let textIn := jsTrim (jsToString (jsOr xv (str "")))
  if textIn = "" then
    throw (jsonResp 400 (obj [("error", str "missing_text")]))
  let messages := (if system ≠ "" then [mkMsg "system" system] else []) ++ [mkMsg "user" textIn]
  let mcpv ← (jsGetE s "mcp").mapError serverError
  let mcpUrl := stripTrailingSlash (jsTrim (jsToString (jsOr (jsChain1 mcpv "url") (str mcpDefault))))
  let enableTools := jsTruthy (jsChain1 mcpv "enableTools")
  let mxv ← (jsGetE s "maximo").mapError serverError
  let tenant := jsToString (jsOr (jsChain1 mxv "defaultTenant") (str "default"))
  return { cfg, provider, model, temperature, system, textIn, messages, mcpUrl, enableTools, tenant }

/-- UTF-8 bytes of a code point. -/
def utf8Bytes (n : Nat) : List Nat :=
  if n < 128 then [n]
  else if n < 2048 then [192 + n / 64, 128 + n % 64]
  else if n < 65536 then [224 + n / 4096, 128 + (n / 64) % 64, 128 + n % 64]
  else [240 + n / 262144, 128 + (n / 4096) % 64, 128 + (n / 64) % 64, 128 + n % 64]

/-- Upper-case hex digit. -/
def hexDigitUpper (m : Nat) : Char :=
  if m < 10 then Char.ofNat (48 + m) else Char.ofNat (55 + m)

/-- A percent-encoded byte. -/
def pctByte (b : Nat) : String := ⟨['%', hexDigitUpper (b / 16), hexDigitUpper (b % 16)]⟩

/-- Characters `encodeURIComponent` leaves as-is. -/
def uriUnreserved (c : Char) : Bool :=
  c.isAlpha ∨ c.isDigit ∨ c = '-' ∨ c = '_' ∨ c = '.' ∨ c = '!' ∨ c = '~' ∨ c = '*' ∨
    c = Char.ofNat 39 ∨ c = '(' ∨ c = ')'

/-- Model of `encodeURIComponent`. -/
def encodeURIComponent (s : String) : String :=
  String.join (s.data.map fun c =>
    if uriUnreserved c then String.singleton c
    else String.join ((utf8Bytes c.toNat).map pctByte))

/-- Characters `URLSearchParams` serialization leaves as-is. -/
def formUrlChar (c : Char) : Bool :=
  c.isAlpha ∨ c.isDigit ∨ c = '*' ∨ c = '-' ∨ c = '.' ∨ c = '_'

/-- One component of `URLSearchParams.toString` (space becomes `+`). -/
def formEncode (s : String) : String :=
  String.join (s.data.map fun c =>
    if formUrlChar c then String.singleton c
    else if c = ' ' then "+"
    else String.join ((utf8Bytes c.toNat).map pctByte))

/-- Model of `URLSearchParams.toString` over set parameters in set order. -/
def urlParamsToString (ps : List (String × String)) : String :=
  String.intercalate "&" (ps.map fun p => formEncode p.1 ++ "=" ++ formEncode p.2)

/-- Whether a value is an array (`Array.isArray`). -/
def isJsArr : JsValue → Bool
  | .arr _ => true
  | _ => false

/-- The tool-catalog phase (`src/app/server.mjs` lines 318-323): fetch and
defensively normalize the catalog when tools are enabled, else no call and
an empty list.  Failure of the fetch degrades to an empty raw list. -/
def toolsPhase (p : ChatPrelude) (net : Nat → FetchOut) : List NetCall × List JsValue :=
  if p.enableTools ∧ p.mcpUrl ≠ "" then
    let url := p.mcpUrl ++ "/mcp/tools?tenant=" ++ encodeURIComponent p.tenant
    let tr := net 0
    let rawTools : JsValue :=
      match jsonParse tr.text with
      | some j =>
        if tr.ok ∧ jsTruthy j ∧ isJsArr (jsGetU j "tools") then jsGetU j "tools"
        else arr []
      | none => arr []
    ([NetCall.toolsFetch url], toOpenAITools rawTools)
  else ([], [])

/-- Optional chaining through two members, `v?.k1?.k2`. -/
def jsChain2 (v : JsValue) (k1 k2 : String) : JsValue := jsChain1 (jsChain1 v k1) k2

/-- Content of a tool-result message (`src/app/server.mjs` line 350):
the decoded JSON body re-serialized, or the raw text when the body is
not decodable (or decodes to a falsy value). -/
def toolContent (cr : FetchOut) : String :=
  match jsonParse cr.text with
  | some j => if jsTruthy j then jsonStringify j else cr.text
  | none => cr.text

/-- The decoded argument object for one tool call (`src/app/server.mjs`
lines 337-339): the argument value, defaulted when falsy, is coerced to a
string and JSON-decoded; on decode failure it is wrapped as `raw`. -/
def invokeArgsOf (tc : JsValue) : JsValue :=
  let argsStr := jsOr (jsChain2 tc "function" "arguments") (str (lbraceStr ++ rbraceStr))
  match jsonParse (jsToString argsStr) with
  | some v => v
  | none => obj [("raw", argsStr)]

/-- The broker-invoke call issued for one tool call (`src/app/server.mjs`
lines 341-345). -/
def mkInvokeCall (mcpUrl tenant : String) (tc : JsValue) : NetCall :=
  NetCall.brokerInvoke (mcpUrl ++ "/mcp/call") (jsChain2 tc "function" "name")
    (invokeArgsOf tc) tenant

/-- The tool-result message appended for one tool call
(`src/app/server.mjs` lines 347-351). -/
def mkToolMsg (tc : JsValue) (cr : FetchOut) : JsValue :=
  obj [("role", str "tool"), ("tool_call_id", jsGetU tc "id"),
    ("content", str (toolContent cr))]

/-- The tool-call execution loop (`src/app/server.mjs` lines 335-352):
one broker invoke per requested call, in order, each appending one
tool-result message.  A nullish entry makes the unguarded `tc.id` access
throw after that entry has already been invoked, aborting the loop. -/
def toolLoop (mcpUrl tenant : String) (net : Nat → FetchOut) :
    Nat → List JsValue → List NetCall × Except String (List JsValue)
  | _, [] => ([], .ok [])
  | k, tc :: rest =>
    let call := mkInvokeCall mcpUrl tenant tc
    if jsNullish tc then ([call], .error "TypeError")
    else
      let tmsg := mkToolMsg tc (net k)
      let next := toolLoop mcpUrl tenant net (k + 1) rest
      (call :: next.1, next.2.map fun ms => tmsg :: ms)

/-- The list of tool-result messages the loop produces when no entry is
nullish: the i-th tool call paired with the i-th invoke response. -/
def toolMsgsSpec (net : Nat → FetchOut) : Nat → List JsValue → List JsValue
  | _, [] => []
  | k, tc :: rest => mkToolMsg tc (net k) :: toolMsgsSpec net (k + 1) rest

/-- The assistant message of a completion body,
`out?.choices?.[0]?.message || ` the empty object
(`src/app/server.mjs` line 326). -/
def assistantMsgOf (out : JsValue) : JsValue :=
  jsOr (jsChain1 (jsIdxChain (jsChain1 out "choices") 0) "message") (obj [])

/-- The tool-call list of a completion body (`src/app/server.mjs`
line 327): `msg.tool_calls` when it is an array, else empty. -/
def toolCallsOf (out : JsValue) : List JsValue :=
  match jsGetU (assistantMsgOf out) "tool_calls" with
  | .arr l => l
  | _ => []

/-- The final reply text of the follow-up completion,
`out2?.choices?.[0]?.message?.content || ""` coerced to a string
(`src/app/server.mjs` lines 355-356). -/
def finalReplyOf (out2 : JsValue) : String :=
  jsToString (jsOr (jsChain1 (jsChain1 (jsIdxChain (jsChain1 out2 "choices") 0) "message") "content") (str ""))

/-- The `/api/agent/chat` handler after a successful first completion
(`src/app/server.mjs` lines 326-357). -/
def agentAfterFirst (p : ChatPrelude) (net : Nat → FetchOut) (callsAcc : List NetCall)
    (out1 : JsValue) : HttpResp × List NetCall :=
  let msg := assistantMsgOf out1
  let toolCalls := toolCallsOf out1
  if toolCalls = [] then
    (jsonResp 200 (obj [("reply", str (jsToString (jsOr (jsGetU msg "content") (str ""))))]), callsAcc)
  else
    match toolLoop p.mcpUrl p.tenant net callsAcc.length toolCalls with
    | (ic, .error e) => (serverError e, callsAcc ++ ic)
    | (ic, .ok tmsgs) =>
      let follow := p.messages ++ [msg] ++ tmsgs
      match openaiCompatChat p.cfg p.model p.temperature follow none
          (net (callsAcc.length + ic.length)) with
      | (c2, .error e) => (serverError e, callsAcc ++ ic ++ c2)
      | (c2, .ok out2) =>
        (jsonResp 200 (obj [("reply", str (finalReplyOf out2))]), callsAcc ++ ic ++ c2)

/-- The `/api/agent/chat` handler (`src/app/server.mjs` lines 295-357) as
a pure function of the effective settings, the parsed request body, and a
network oracle giving the response to the n-th outbound call.  The second
component is the ordered list of outbound network calls made during the
turn; a thrown error is converted to the route-level 500 response with
the calls made up to that point. -/
def agentChat (mcpDefault : String) (s parsed : JsValue) (net : Nat → FetchOut) :
    HttpResp × List NetCall :=
  match chatPrelude mcpDefault s parsed with
  | .error r => (r, [])
  | .ok p =>
    let phase := toolsPhase p net
    match openaiCompatChat p.cfg p.model p.temperature p.messages
        (if phase.2 = [] then none else some phase.2) (net phase.1.length) with
    | (c1, .error e) => (serverError e, phase.1 ++ c1)
    | (c1, .ok out1) => agentAfterFirst p net (phase.1 ++ c1) out1

/-- Pairs produced by object spread `[...v]` sources: objects give their
fields, arrays and strings give index-keyed entries, primitives none. -/
def spreadPairs : JsValue → List (String × JsValue)
  | .obj l => l
  | .arr l => l.enum.map fun p => (toString p.1, p.2)
  | .str s => s.data.enum.map fun p => (toString p.1, str (String.singleton p.2))
  | _ => []

/-- Merge by object spread: keys of `a` in order, then new keys of `b`;
later values win. -/
def mergePairs (a b : List (String × JsValue)) : List (String × JsValue) :=
  b.foldl (fun acc p => objInsert acc p.1 p.2) a

/-- `delete o[k]` on an object field list. -/
def deleteKey (l : List (String × JsValue)) (k : String) : List (String × JsValue) :=
  l.filter fun p => p.1 ≠ k

/-- Strict-mode property assignment `v[k] = x`: updates objects, is
invisible in the persisted JSON for arrays (non-index properties are not
serialized), and throws on primitives and nullish values. -/
def setKeyE (v : JsValue) (k : String) (x : JsValue) : Except String JsValue :=
  match v with
  | .obj l => .ok (.obj (objInsert l k x))
  | .arr l => .ok (.arr l)
  | _ => .error "TypeError"

/-- The tenant-record sanitizer of `saveSettingsFromUI`
(`src/app/server.mjs` lines 108-114): five trimmed string fields; the
unguarded accesses throw on a nullish element. -/
def sanitizeTenant (t : JsValue) : Except String JsValue := do
  let idv ← jsGetE t "id"
  let labelv ← jsGetE t "label"
  let urlv ← jsGetE t "maximoBaseUrl"
  let orgv ← jsGetE t "org"
  let sitev ← jsGetE t "site"
  return obj [
    ("id", str (jsTrim (jsToString (jsOr idv (str ""))))),
    ("label", str (jsTrim (jsToString (jsOr labelv (str ""))))),
    ("maximoBaseUrl", str (jsTrim (jsToString (jsOr urlv (str ""))))),
    ("org", str (jsTrim (jsToString (jsOr orgv (str ""))))),
    ("site", str (jsTrim (jsToString (jsOr sitev (str "")))))]

/-- `payload.tenants.map(...)` of `saveSettingsFromUI`. -/
def mapTenants : List JsValue → Except String (List JsValue)
  | [] => .ok []
  | t :: r => do
    let t2 ← sanitizeTenant t
    let r2 ← mapTenants r
    return t2 :: r2

/-- The `ui` merge step of `saveSettingsFromUI` (`src/app/server.mjs`
line 101). -/
def saveStepUI (payload next : JsValue) : Except String JsValue :=
  if jsTruthy (jsGetU payload "ui") ∧ jsTypeofObj (jsGetU payload "ui") then do
    let curUi ← jsGetE next "ui"
    setKeyE next "ui" (obj (mergePairs (spreadPairs (jsOr curUi (obj [])))
      (spreadPairs (jsGetU payload "ui"))))
  else pure next

/-- The `maximo` merge-and-strip step of `saveSettingsFromUI`
(`src/app/server.mjs` lines 102-106): merge, then `delete apiKey`. -/
def saveStepMaximo (payload next : JsValue) : Except String JsValue :=
  if jsTruthy (jsGetU payload "maximo") ∧ jsTypeofObj (jsGetU payload "maximo") then do
    let curMx ← jsGetE next "maximo"
    setKeyE next "maximo"
      (obj (deleteKey (mergePairs (spreadPairs (jsOr curMx (obj [])))
        (spreadPairs (jsGetU payload "maximo"))) "apiKey"))
  else pure next

/-- The `mcp` merge step of `saveSettingsFromUI` (`src/app/server.mjs`
line 107). -/
def saveStepMcp (payload next : JsValue) : Except String JsValue :=
  if jsTruthy (jsGetU payload "mcp") ∧ jsTypeofObj (jsGetU payload "mcp") then do
    let curMcp ← jsGetE next "mcp"
    setKeyE next "mcp" (obj (mergePairs (spreadPairs (jsOr curMcp (obj [])))
      (spreadPairs (jsGetU payload "mcp"))))
  else pure next

/-- The `tenants` sanitize-and-filter step of `saveSettingsFromUI`
(`src/app/server.mjs` lines 108-114). -/
def saveStepTenants (payload next : JsValue) : Except String JsValue :=
  match jsGetU payload "tenants" with
  | .arr ts => do
    let mapped ← mapTenants ts
    setKeyE next "tenants" (arr (mapped.filter fun t => jsTruthy (jsGetU t "id")))
  | _ => pure next

/-- `saveSettingsFromUI` (`src/app/server.mjs` lines 95-120) as a function
from the currently persisted settings value and the request payload to
the value written back (`structuredClone` is the identity of the pure
model).  The `maximo` section is merged and then its `apiKey` deleted;
tenants are sanitized and filtered to those with a non-empty id. -/
def saveSettingsFromUI (cur payload : JsValue) : Except String JsValue :=
  if jsTruthy payload ∧ jsTypeofObj payload then do
    let next1 ← saveStepUI payload cur
    let next2 ← saveStepMaximo payload next1
    let next3 ← saveStepMcp payload next2
    saveStepTenants payload next3
  else pure cur

/-!
### MCP broker server (`src/app/server.mjs`, second document)
-/

/-- The environment variables read by `resolveTenant`; the empty string
models an unset variable. -/
structure Env where
  MAXIMO_URL : String
  MAXIMO_APIKEY : String
  DEFAULT_SITEID : String
deriving DecidableEq

/-- The record returned by `resolveTenant` (`src/app/server.mjs`
line 470). -/
structure ResolvedTenant where
  id : String
  baseUrl : String
  apiBase : String
  apiKey : JsValue
  site : String
  org : JsValue
deriving DecidableEq

/-- `tenants.find(x => String(x.id) === target)`: scans in order; a
nullish element reached before a match makes `x.id` throw. -/
def findTenantRec (target : String) : List JsValue → Except String (Option JsValue)
  | [] => .ok none
  | x :: r =>
    if jsNullish x then .error "TypeError"
    else if jsToString (jsGetU x "id") = target then .ok (some x)
    else findTenantRec target r

/-- `resolveTenant` (`src/app/server.mjs` lines 461-471): pick the tenant
record by exact id, then by id `"default"`, then the empty record; the
base URL falls back tenant record → settings → environment, the
credential environment → settings, site tenant record → settings →
environment (upper-cased). -/
def resolveTenant (env : Env) (settings tenantId : JsValue) : Except String ResolvedTenant := do
  let tv ← jsGetE settings "tenants"
  let tenants := match tv with | .arr l => l | _ => []
  let mxv ← jsGetE settings "maximo"
  let defTenant := jsToString (jsOr (jsChain1 mxv "defaultTenant") (str "default"))
  let id := jsToString (jsOr tenantId (jsOr (str defTenant) (str "default")))
  let f1 ← findTenantRec id tenants
  let t1 := f1.getD .undef
  let t ←
    if jsTruthy t1 then pure t1
    else do
      let f2 ← findTenantRec "default" tenants
      pure (jsOr (f2.getD .undef) (obj []))
  let baseUrl := jsOr (jsGetU t "maximoBaseUrl")
    (jsOr (jsChain1 mxv "baseUrl") (jsOr (str env.MAXIMO_URL) (str "")))
  let apiKey := jsOr (str env.MAXIMO_APIKEY) (jsOr (jsChain1 mxv "apiKey") (str ""))
  let site := jsToUpper (jsToString (jsOr (jsGetU t "site")
    (jsOr (jsChain1 mxv "defaultSite") (jsOr (str env.DEFAULT_SITEID) (str "")))))
  let org := jsOr (jsGetU t "org") (str "")
  return { id, baseUrl := normMaximoBase baseUrl, apiBase := maximoApiBase baseUrl,
           apiKey, site, org }

/-- The catch-all 500 response of the MCP server (`src/app/server.mjs`
lines 561-563). -/
def mcpErrorResp (msg : String) : HttpResp :=
  jsonResp 500 (obj [("error", str "mcp_error"), ("detail", str msg)])

/-- The `maximo_failed` upstream-error response (`src/app/server.mjs`
lines 530 and 552), with `r.status || 500` and a truncated body. -/
def maximoFailedResp (r : FetchOut) (url : String) (n : Nat) : HttpResp :=
  jsonResp (if r.status = 0 then 500 else r.status)
    (obj [("error", str "maximo_failed"), ("detail", str (jsSlice0 r.text n)), ("url", str url)])

/-- The `maximo.queryOS` branch of `/mcp/call` (`src/app/server.mjs`
lines 534-555) given the resolved tenant, the decoded `args` and the
would-be backend response: builds the OSLC query (site-scoped default
filter), issues one backend call, and on success returns the envelope
with a redacted trace whose `apikey` header is the fixed mask. -/
def queryOSHandler (tenant : ResolvedTenant) (args : JsValue) (r : FetchOut) :
    HttpResp × List NetCall :=
  let os := jsTrim (jsToString (jsOr (jsGetU args "os") (str "")))
  let pv := jsGetU args "params"
  let paramsIn := if jsTruthy pv ∧ jsTypeofObj pv then pv else obj []
  if os = "" then (jsonResp 400 (obj [("error", str "missing_os")]), [])
  else
    let w0 := jsTrim (jsToString (jsOr (jsGetU paramsIn "oslc.where") (str "")))
    let whereClause :=
      if w0 ≠ "" then w0
      else if tenant.site ≠ "" then "siteid=\"" ++ tenant.site ++ "\"" else ""
    let selectClause := jsTrim (jsToString (jsOr (jsGetU paramsIn "oslc.select") (str "")))
    let orderByClause := jsTrim (jsToString (jsOr (jsGetU paramsIn "oslc.orderBy") (str "")))
    let pageSizeClause := jsTrim (jsToString (jsOr (jsGetU paramsIn "oslc.pageSize") (str "")))
    let ps := (if whereClause ≠ "" then [("oslc.where", whereClause)] else [])
      ++ (if selectClause ≠ "" then [("oslc.select", selectClause)] else [])
      ++ (if orderByClause ≠ "" then [("oslc.orderBy", orderByClause)] else [])
      ++ (if pageSizeClause ≠ "" then [("oslc.pageSize", pageSizeClause)] else [])
    let url := tenant.apiBase ++ "/os/" ++ encodeURIComponent os ++ "?" ++ urlParamsToString ps
    let call := NetCall.backendGet url tenant.apiKey
    match jsonParse r.text with
    | some j =>
      if r.ok ∧ jsTruthy j then
        (jsonResp 200 (obj [("ok", bool true), ("tenant", str tenant.id), ("os", str os),
          ("data", j),
          ("trace", obj [("request", obj [("method", str "GET"), ("url", str url),
            ("headers", obj [("apikey", str "***")])])])]), [call])
      else (maximoFailedResp r url 800, [call])
    | none => (maximoFailedResp r url 800, [call])

/-- The `/mcp/call` route (`src/app/server.mjs` lines 514-558) as a pure
function of the environment, the settings file content, the parsed
request body and the network oracle. -/
def mcpCall (env : Env) (settings parsed : JsValue) (net : Nat → FetchOut) :
    HttpResp × List NetCall :=
  let pre : Except String (String × JsValue × ResolvedTenant) := do
    let nv ← jsGetE parsed "name"
    let name := jsTrim (jsToString (jsOr nv (str "")))
    let av ← jsGetE parsed "args"
    let args := jsOr av (obj [])
    let tid ← jsGetE parsed "tenant"
    let tenant ← resolveTenant env settings tid
    return (name, args, tenant)
  match pre with
  | .error e => (mcpErrorResp e, [])
  | .ok (name, args, tenant) =>
    if name = "" then (jsonResp 400 (obj [("error", str "missing_tool_name")]), [])
    else if tenant.apiBase = "" ∨ jsTruthy tenant.apiKey = false then
      (jsonResp 400 (obj [("error", str "missing_maximo_config"),
        ("detail", str "MAXIMO_URL and MAXIMO_APIKEY must be provided (secret/env) or in settings.json.")]), [])
    else if name = "maximo.listOS" then
      let url := tenant.apiBase ++ "/os"
      let r := net 0
      let call := NetCall.backendGet url tenant.apiKey
      match jsonParse r.text with
      | some j =>
        if r.ok ∧ jsTruthy j then
          (jsonResp 200 (obj [("ok", bool true), ("tenant", str tenant.id), ("list", j)]), [call])
        else (maximoFailedResp r url 600, [call])
      | none => (maximoFailedResp r url 600, [call])
    else if name = "maximo.queryOS" then
      queryOSHandler tenant args (net 0)
    else (jsonResp 404 (obj [("error", str "unknown_tool"), ("name", str name)]), [])

/-!
### Derived notions used by the verified properties
-/

/-- Whether an outbound call is a chat-completion request. -/
def isCompletionCall : NetCall → Bool
  | .completion _ _ _ => true
  | _ => false

/-- Whether an object value has an own field of the given name. -/
def objHasKey : JsValue → String → Bool
  | .obj l, k => l.any fun p => p.1 = k
  | _, _ => false

/-- Field lookup restricted to object values. -/
def objGet (v : JsValue) (k : String) : Option JsValue :=
  match v with
  | .obj l => objLookup l k
  | _ => none

/-- The tenant registry of a settings value (`Array.isArray` guard of
`src/app/server.mjs` line 462). -/
def tenantsOf (s : JsValue) : List JsValue :=
  match jsGetU s "tenants" with
  | .arr l => l
  | _ => []

/-- `String(settings.maximo?.defaultTenant || "default")`
(`src/app/server.mjs` line 463). -/
def defaultTenantOf (s : JsValue) : String :=
  jsToString (jsOr (jsChain1 (jsGetU s "maximo") "defaultTenant") (str "default"))

/-- `String(tenantId || def || "default")` (`src/app/server.mjs`
line 464). -/
def requestedIdOf (s tid : JsValue) : String :=
  jsToString (jsOr tid (jsOr (str (defaultTenantOf s)) (str "default")))

/-- The resolved tenant built from a picked registry record `t`
(`src/app/server.mjs` lines 467-470): base URL falls back record →
settings → environment, credential environment → settings, site record →
settings → environment (upper-cased), organization record only. -/
def resolveFromRecord (env : Env) (s : JsValue) (id : String) (t : JsValue) : ResolvedTenant :=
  let mxv := jsGetU s "maximo"
  let baseUrl := jsOr (jsGetU t "maximoBaseUrl")
    (jsOr (jsChain1 mxv "baseUrl") (jsOr (str env.MAXIMO_URL) (str "")))
  { id := id
    baseUrl := normMaximoBase baseUrl
    apiBase := maximoApiBase baseUrl
    apiKey := jsOr (str env.MAXIMO_APIKEY) (jsOr (jsChain1 mxv "apiKey") (str ""))
    site := jsToUpper (jsToString (jsOr (jsGetU t "site")
      (jsOr (jsChain1 mxv "defaultSite") (jsOr (str env.DEFAULT_SITEID) (str "")))))
    org := jsOr (jsGetU t "org") (str "") }

/-- A tool record in the canonical shape the normalizer emits: exact
field layout, non-empty name, truthy object-typed parameters. -/
def isCanonicalTool (t : JsValue) : Prop :=
  ∃ n d p, t = obj [("type", str "function"), ("function", obj [("name", str n),
      ("description", str d), ("parameters", p)])] ∧
    n ≠ "" ∧ jsTruthy p = true ∧ jsTypeofObj p = true

/-!
### Concrete fixtures used by counterexamples and witnesses
-/

/-- Effective settings with an OpenAI key and tools disabled. -/
def wSettings : JsValue :=
  obj [("ai", obj [("openai_key", str "k")]), ("mcp", obj [("enableTools", bool false)]),
    ("maximo", obj [])]

/-- A minimal chat request body. -/
def wParsed : JsValue := obj [("text", str "hi")]

/-- A completion body whose assistant message has plain content. -/
def wOutPlain : JsValue :=
  obj [("choices", arr [obj [("message", obj [("role", str "assistant"),
    ("content", str "hello")])]])]

/-- A completion body whose assistant message requests one tool call with
a malformed (non-JSON) argument string. -/
def wOutTc : JsValue :=
  obj [("choices", arr [obj [("message", obj [("role", str "assistant"),
    ("tool_calls", arr [obj [("id", str "c1"), ("function", obj [("name", str "maximo.listOS"),
      ("arguments", str "not json")])]])])]])]

/-- A completion body whose tool-call array starts with a JSON `null`
followed by a well-formed call. -/
def wOutNullTc : JsValue :=
  obj [("choices", arr [obj [("message", obj [("role", str "assistant"),
    ("tool_calls", arr [null, obj [("id", str "c2"), ("function", obj [("name", str "t"),
      ("arguments", str "bad json")])]])])]])]

/-- Network oracle: first response carries the tool call, later responses
are plain. -/
def wNetTc : Nat → FetchOut := fun k =>
  if k = 0 then { ok := true, status := 200, text := jsonStringify wOutTc }
  else if k = 1 then { ok := true, status := 200, text := jsonStringify (obj [("done", bool true)]) }
  else { ok := true, status := 200, text := jsonStringify wOutPlain }

/-- Network oracle: first response carries the null-headed tool-call
array. -/
def wNetNullTc : Nat → FetchOut := fun k =>
  if k = 0 then { ok := true, status := 200, text := jsonStringify wOutNullTc }
  else { ok := true, status := 200, text := jsonStringify (obj [("done", bool true)]) }

/-- An inert network oracle. -/
def wNetZero : Nat → FetchOut := fun _ => { ok := false, status := 0, text := "" }

/-- Effective settings with no provider credential at all. -/
def wSettingsNoKey : JsValue := obj [("mcp", obj []), ("maximo", obj [])]

/-- An empty environment (every variable unset). -/
def wEnv : Env := { MAXIMO_URL := "", MAXIMO_APIKEY := "", DEFAULT_SITEID := "" }

/-- An environment carrying only the backend credential. -/
def wEnvKey : Env := { MAXIMO_URL := "", MAXIMO_APIKEY := "K", DEFAULT_SITEID := "" }

/-- A concrete chat prelude with a truthy credential. -/
def wPrelude : ChatPrelude :=
  { cfg := { provider := "openai", key := str "k", base := "https://api.openai.com" }
    provider := "openai", model := "", temperature := num "0.7", system := ""
    textIn := "hi", messages := [mkMsg "user" "hi"], mcpUrl := "http://mcp"
    enableTools := false, tenant := "default" }

/-!
### Helper lemmas
-/

theorem trimRightList_eq_rdropWhile (l : List Char) :
    trimRightList l = List.rdropWhile isJsWs l := rfl

theorem jsTrimList_eq (l : List Char) :
    jsTrimList l = List.rdropWhile isJsWs (l.dropWhile isJsWs) := rfl

theorem dropWhile_eq_self_of_trimmed (l : List Char) (h : l.dropWhile isJsWs = l) :
    (List.rdropWhile isJsWs l).dropWhile isJsWs = List.rdropWhile isJsWs l := by
  rw [List.dropWhile_eq_self_iff]
  intro h0
  obtain ⟨t, ht⟩ := List.rdropWhile_prefix isJsWs l
  rw [List.dropWhile_eq_self_iff] at h
  have h0l : 0 < l.length := by
    have := List.IsPrefix.length_le ⟨t, ht⟩
    omega
  have hh := h h0l
  have hget : (List.rdropWhile isJsWs l)[0] = l[0] := List.IsPrefix.getElem ⟨t, ht⟩ h0
  simpa [List.get_eq_getElem, hget] using hh

theorem jsTrimList_idem (l : List Char) : jsTrimList (jsTrimList l) = jsTrimList l := by
  rw [jsTrimList_eq, jsTrimList_eq,
    dropWhile_eq_self_of_trimmed _ (List.dropWhile_idempotent isJsWs l),
    List.rdropWhile_idempotent]

theorem jsTrimList_eq_self (l : List Char)
    (h1 : l.dropWhile isJsWs = l) (h2 : List.rdropWhile isJsWs l = l) :
    jsTrimList l = l := by
  rw [jsTrimList_eq, h1, h2]

theorem isJsWs_cases (c : Char) (h : isJsWs c = true) :
    c = ' ' ∨ c = '\t' ∨ c = '\n' ∨ c = '\r' ∨ c = '\x0b' ∨ c = '\x0c' := by
  simpa [isJsWs] using h

theorem isFieldChar_not_ws (c : Char) (h : isFieldChar c = true) : isJsWs c = false := by
  cases hw : isJsWs c
  · rfl
  · rcases isJsWs_cases c hw with h2 | h2 | h2 | h2 | h2 | h2 <;> subst h2 <;>
      exact absurd h (by decide)

theorem lower_a_not_ws (c : Char) (h : toLowerChar c = 'a') : isJsWs c = false := by
  cases hw : isJsWs c
  · rfl
  · rcases isJsWs_cases c hw with h2 | h2 | h2 | h2 | h2 | h2 <;> subst h2 <;>
      exact absurd h (by decide)

theorem lower_d_not_ws (c : Char) (h : toLowerChar c = 'd') : isJsWs c = false := by
  cases hw : isJsWs c
  · rfl
  · rcases isJsWs_cases c hw with h2 | h2 | h2 | h2 | h2 | h2 <;> subst h2 <;>
      exact absurd h (by decide)

theorem rdropWhile_cons_eq_self (c : Char) (l : List Char) (hc : isJsWs c = false)
    (hl : ∀ x ∈ l, isJsWs x = false) : List.rdropWhile isJsWs (c :: l) = c :: l := by
  rw [List.rdropWhile_eq_self_iff]
  intro hne
  have hmem := List.getLast_mem hne
  rcases List.mem_cons.mp hmem with h | h
  · rw [h, hc]; simp
  · rw [hl _ h]; simp

theorem rdropWhile_cons_eq_self_of_last (c : Char) (s : List Char) (hc : isJsWs c = false)
    (hs : List.rdropWhile isJsWs s = s) : List.rdropWhile isJsWs (c :: s) = c :: s := by
  rw [List.rdropWhile_eq_self_iff] at hs ⊢
  intro hne
  cases s with
  | nil => simp [List.getLast, hc]
  | cons a t =>
    rw [List.getLast_cons (by simp : a :: t ≠ [])]
    exact hs (by simp)

theorem parseFieldDir_fld (l fld : List Char) (b : Bool)
    (h : parseFieldDir l = some (fld, b)) :
    fld = l.takeWhile isFieldChar ∧ fld ≠ [] := by
  simp only [parseFieldDir] at h
  split_ifs at h with h1 h2 h3 h4 <;>
    first
    | (rw [Option.some.injEq, Prod.mk.injEq] at h; exact ⟨h.1.symm, h.1 ▸ h1⟩)
    | simp at h

theorem normalizeOrderByList_shape (l : List Char) :
    normalizeOrderByList l = [] ∨
    (∃ c t, normalizeOrderByList l = c :: t ∧ (c = '+' ∨ c = '-') ∧
      jsTrimList (c :: t) = c :: t) := by
  unfold normalizeOrderByList
  cases hs : jsTrimList l with
  | nil => exact Or.inl rfl
  | cons c rest =>
    by_cases hc : c = '+' ∨ c = '-'
    · refine Or.inr ⟨c, rest, by simp [hc], hc, ?_⟩
      rw [← hs, jsTrimList_idem]
    · simp only [hc, if_false]
      cases hp : parseFieldDir (c :: rest) with
      | none =>
        refine Or.inr ⟨'+', c :: rest, by simp, Or.inl rfl, ?_⟩
        have hclean : List.rdropWhile isJsWs (c :: rest) = c :: rest := by
          have : List.rdropWhile isJsWs (jsTrimList l) = jsTrimList l := by
            rw [jsTrimList_eq, List.rdropWhile_idempotent]
          rwa [hs] at this
        refine jsTrimList_eq_self _ ?_ ?_
        · have hcws : isJsWs '+' = false := by decide
          simp [List.dropWhile_cons, hcws]
        · exact rdropWhile_cons_eq_self_of_last _ _ (by decide) hclean
      | some fb =>
        obtain ⟨fld, b⟩ := fb
        obtain ⟨hfld, hne⟩ := parseFieldDir_fld _ _ _ hp
        have hall : ∀ x ∈ fld, isJsWs x = false := by
          intro x hx
          rw [hfld] at hx
          exact isFieldChar_not_ws x (List.mem_takeWhile_imp hx)
        cases b with
        | true =>
          refine Or.inr ⟨'-', fld, by simp, Or.inr rfl, ?_⟩
          refine jsTrimList_eq_self _ ?_ ?_
          · simp [List.dropWhile_cons, (by decide : isJsWs '-' = false)]
          · exact rdropWhile_cons_eq_self _ _ (by decide) hall
        | false =>
          refine Or.inr ⟨'+', fld, by simp, Or.inl rfl, ?_⟩
          refine jsTrimList_eq_self _ ?_ ?_
          · simp [List.dropWhile_cons, (by decide : isJsWs '+' = false)]
          · exact rdropWhile_cons_eq_self _ _ (by decide) hall

theorem normalizeOrderByList_idem (l : List Char) :
    normalizeOrderByList (normalizeOrderByList l) = normalizeOrderByList l := by
  rcases normalizeOrderByList_shape l with h0 | ⟨c, t, ho, hc, hclean⟩
  · rw [h0]; rfl
  · rw [ho]
    unfold normalizeOrderByList
    rw [hclean]
    simp [hc]

theorem normalizeOrderBy_str (s : String) :
    normalizeOrderBy (str s) = ⟨normalizeOrderByList s.data⟩ := by
  unfold normalizeOrderBy
  by_cases h : s = ""
  · subst h; rfl
  · simp [jsOr, jsTruthy, h, jsToString]

theorem lower_c_not_ws (c : Char) (h : toLowerChar c = 'c') : isJsWs c = false := by
  cases hw : isJsWs c
  · rfl
  · rcases isJsWs_cases c hw with h2 | h2 | h2 | h2 | h2 | h2 <;> subst h2 <;>
      exact absurd h (by decide)

theorem ws_not_fieldChar (c : Char) (h : isJsWs c = true) : isFieldChar c = false := by
  cases hf : isFieldChar c
  · rfl
  · exact absurd (isFieldChar_not_ws c hf) (by simp [h])

theorem takeWhile_append_all {p : Char → Bool} (l1 l2 : List Char)
    (h : ∀ c ∈ l1, p c = true) :
    (l1 ++ l2).takeWhile p = l1 ++ l2.takeWhile p := by
  induction l1 with
  | nil => simp
  | cons a t ih =>
    simp only [List.cons_append, List.takeWhile_cons, h a (by simp), if_true]
    rw [ih fun c hc => h c (by simp [hc])]

theorem dropWhile_append_all {p : Char → Bool} (l1 l2 : List Char)
    (h : ∀ c ∈ l1, p c = true) :
    (l1 ++ l2).dropWhile p = l2.dropWhile p := by
  induction l1 with
  | nil => simp
  | cons a t ih =>
    simp only [List.cons_append, List.dropWhile_cons, h a (by simp)]
    exact ih fun c hc => h c (by simp [hc])

theorem map_eq_three {f : Char → Char} {l : List Char} {a b c : Char}
    (h : l.map f = [a, b, c]) :
    ∃ x y z, l = [x, y, z] ∧ f x = a ∧ f y = b ∧ f z = c := by
  cases l with
  | nil => simp at h
  | cons x r =>
    cases r with
    | nil => simp at h
    | cons y r2 =>
      cases r2 with
      | nil => simp at h
      | cons z r3 =>
        cases r3 with
        | nil =>
          simp only [List.map_cons, List.map_nil, List.cons.injEq, and_true] at h
          exact ⟨x, y, z, rfl, h.1, h.2.1, h.2.2⟩
        | cons u r4 => simp at h

theorem map_eq_four {f : Char → Char} {l : List Char} {a b c d : Char}
    (h : l.map f = [a, b, c, d]) :
    ∃ x y z u, l = [x, y, z, u] ∧ f x = a ∧ f y = b ∧ f z = c ∧ f u = d := by
  cases l with
  | nil => simp at h
  | cons x r =>
    simp only [List.map_cons, List.cons.injEq] at h
    obtain ⟨hx, hr⟩ := h
    obtain ⟨y, z, u, hl, h1, h2, h3⟩ := map_eq_three hr
    exact ⟨x, y, z, u, by rw [hl], hx, h1, h2, h3⟩

theorem fieldChar_not_pm (a : Char) (h : isFieldChar a = true) : ¬(a = '+' ∨ a = '-') := by
  rintro (rfl | rfl) <;> exact absurd h (by decide)

theorem normalizeOrderByList_cons (l : List Char) (a : Char) (t : List Char)
    (h : jsTrimList l = a :: t) :
    normalizeOrderByList l =
      (if a = '+' ∨ a = '-' then a :: t
       else match parseFieldDir (a :: t) with
         | some (fld, true) => '-' :: fld
         | some (fld, false) => '+' :: fld
         | none => '+' :: (a :: t)) := by
  unfold normalizeOrderByList
  rw [h]

theorem normalizeOrderBy_fieldDir (fld w d : String) (hf : fld ≠ "")
    (hfc : ∀ c ∈ fld.data, isFieldChar c = true) (hw : w ≠ "")
    (hwc : ∀ c ∈ w.data, isJsWs c = true) (b : Bool)
    (hd : d.data.map toLowerChar = (if b then "desc" else "asc").data) :
    normalizeOrderBy (str (fld ++ w ++ d)) = (if b then "-" else "+") ++ fld := by
  rw [normalizeOrderBy_str]
  have hfld : fld.data ≠ [] := fun hnil => hf (String.ext hnil)
  have hwd : w.data ≠ [] := fun hnil => hw (String.ext hnil)
  obtain ⟨a, t, ha⟩ : ∃ a t, fld.data = a :: t := by
    cases hfl : fld.data with
    | nil => exact absurd hfl hfld
    | cons a t => exact ⟨a, t, rfl⟩
  obtain ⟨w0, wt, hw0⟩ : ∃ w0 wt, w.data = w0 :: wt := by
    cases hwl : w.data with
    | nil => exact absurd hwl hwd
    | cons w0 wt => exact ⟨w0, wt, rfl⟩
  have hdshape : ∃ c0 t0 init z, d.data = c0 :: t0 ∧ d.data = init ++ [z] ∧
      isJsWs c0 = false ∧ isJsWs z = false := by
    cases b with
    | false =>
      obtain ⟨x, y, z, hl, h1, _, h3⟩ := map_eq_three (by simpa using hd)
      exact ⟨x, [y, z], [x, y], z, hl, by rw [hl]; rfl, lower_a_not_ws x h1, lower_c_not_ws z h3⟩
    | true =>
      obtain ⟨x, y, z, u, hl, h1, _, _, h4⟩ := map_eq_four (by simpa using hd)
      exact ⟨x, [y, z, u], [x, y, z], u, hl, by rw [hl]; rfl, lower_d_not_ws x h1,
        lower_c_not_ws u h4⟩
  obtain ⟨c0, t0, dinit, dz, hd1, hd2, hc0, hdz⟩ := hdshape
  have hxdata : (fld ++ w ++ d).data = fld.data ++ (w.data ++ d.data) := by
    simp [String.data_append]
  have hnotwsa : isJsWs a = false := isFieldChar_not_ws a (hfc a (by rw [ha]; simp))
  have htrim : jsTrimList (fld.data ++ (w.data ++ d.data)) = fld.data ++ (w.data ++ d.data) := by
    refine jsTrimList_eq_self _ ?_ ?_
    · rw [ha]
      simp [List.dropWhile_cons, hnotwsa]
    · have hre : fld.data ++ (w.data ++ d.data) = (fld.data ++ w.data ++ dinit) ++ [dz] := by
        rw [hd2]
        simp [List.append_assoc]
      rw [hre]
      exact List.rdropWhile_concat_neg _ _ _ (by simp [hdz])
  have htake : (fld.data ++ (w.data ++ d.data)).takeWhile isFieldChar = fld.data := by
    rw [takeWhile_append_all _ _ hfc, hw0]
    simp [List.takeWhile_cons, ws_not_fieldChar w0 (hwc w0 (by rw [hw0]; simp))]
  have hdrop : (fld.data ++ (w.data ++ d.data)).dropWhile isFieldChar = w.data ++ d.data := by
    rw [dropWhile_append_all _ _ hfc, hw0]
    simp [List.dropWhile_cons, ws_not_fieldChar w0 (hwc w0 (by rw [hw0]; simp))]
  have htakews : (w.data ++ d.data).takeWhile isJsWs = w.data := by
    rw [takeWhile_append_all _ _ hwc, hd1]
    simp [List.takeWhile_cons, hc0]
  have hdropws : (w.data ++ d.data).dropWhile isJsWs = d.data := by
    rw [dropWhile_append_all _ _ hwc, hd1]
    simp [List.dropWhile_cons, hc0]
  have hparse : parseFieldDir (fld.data ++ (w.data ++ d.data)) =
      some (fld.data, b) := by
    simp only [parseFieldDir, htake, hdrop, htakews, hdropws]
    rw [if_neg hfld, if_neg (by rw [hw0]; simp)]
    cases b with
    | false => rw [if_pos (by simpa using hd)]
    | true =>
      rw [if_neg ?_, if_pos (by simpa using hd)]
      rw [show ((if true then "desc" else "asc") : String) = "desc" from rfl] at hd
      intro hcontra
      rw [hd] at hcontra
      exact absurd hcontra (by decide)
  have hhead : ¬(a = '+' ∨ a = '-') := fieldChar_not_pm a (hfc a (by rw [ha]; simp))
  have hX : fld.data ++ (w.data ++ d.data) = a :: (t ++ (w.data ++ d.data)) := by
    rw [ha]; rfl
  rw [hxdata, normalizeOrderByList_cons _ a (t ++ (w.data ++ d.data)) (by rw [htrim, hX]),
    if_neg hhead, ← hX, hparse]
  cases b with
  | false =>
    apply String.ext
    simp [String.data_append]
  | true =>
    apply String.ext
    simp [String.data_append]

/-!
### C6 — ordering-token conversion
-/

/-- C6: the ordering-token conversion `normalizeOrderBy` is total,
deterministic and idempotent: a (whitespace-free, hence trim-fixed) token
already prefixed with `+` or `-` is returned unchanged; a
`field asc|desc` form (direction word case-insensitive) is rewritten to
the `-`-prefixed (desc) or `+`-prefixed (asc) token; any other non-empty
trimmed form is returned prefixed with `+`; `"changedate desc"` maps to
`"-changedate"`, `"-changedate"` is a no-op, `"changedate"` maps to
`"+changedate"`; and applying the conversion twice equals applying it
once for every input string. -/
theorem c6_orderby_normalization :
    (∀ s : String, jsTrimList s.data = s.data →
      (∀ a t, s.data = a :: t → a = '+' ∨ a = '-') →
      normalizeOrderBy (str s) = s) ∧
    (∀ fld w d : String, fld ≠ "" → (∀ c ∈ fld.data, isFieldChar c = true) →
      w ≠ "" → (∀ c ∈ w.data, isJsWs c = true) →
      (d.data.map toLowerChar = "asc".data →
        normalizeOrderBy (str (fld ++ w ++ d)) = "+" ++ fld) ∧
      (d.data.map toLowerChar = "desc".data →
        normalizeOrderBy (str (fld ++ w ++ d)) = "-" ++ fld)) ∧
    (∀ s : String, jsTrimList s.data = s.data → s ≠ "" →
      (∀ a t, s.data = a :: t → ¬(a = '+' ∨ a = '-')) →
      parseFieldDir s.data = none →
      normalizeOrderBy (str s) = "+" ++ s) ∧
    (normalizeOrderBy (str "changedate desc") = "-changedate" ∧
      normalizeOrderBy (str "-changedate") = "-changedate" ∧
      normalizeOrderBy (str "changedate") = "+changedate") ∧
    (∀ s : String, normalizeOrderBy (str (normalizeOrderBy (str s))) = normalizeOrderBy (str s)) := by
  refine ⟨?_, ?_, ?_, by decide, ?_⟩
  · intro s htrim hhead
    rw [normalizeOrderBy_str]
    apply String.ext
    cases hs : s.data with
    | nil => rfl
    | cons a t =>
      rw [hs] at htrim
      show normalizeOrderByList (a :: t) = a :: t
      rw [normalizeOrderByList_cons (a :: t) a t htrim, if_pos (hhead a t hs)]
  · intro fld w d hf hfc hw hwc
    exact ⟨fun hd => normalizeOrderBy_fieldDir fld w d hf hfc hw hwc false hd,
      fun hd => normalizeOrderBy_fieldDir fld w d hf hfc hw hwc true hd⟩
  · intro s htrim hne hhead hp
    rw [normalizeOrderBy_str]
    apply String.ext
    have hsd : s.data ≠ [] := fun hnil => hne (String.ext hnil)
    cases hs : s.data with
    | nil => exact absurd hs hsd
    | cons a t =>
      rw [hs] at htrim hp
      show normalizeOrderByList (a :: t) = ("+" ++ s).data
      rw [normalizeOrderByList_cons (a :: t) a t htrim, if_neg (hhead a t hs), hp,
        String.data_append, hs]
      rfl
  · intro s
    rw [normalizeOrderBy_str, normalizeOrderBy_str]
    apply String.ext
    exact normalizeOrderByList_idem s.data

/-- Witness for C6 at a concrete mixed-case descending form. -/
theorem c6_orderby_normalization_witness :
    normalizeOrderBy (str ("changedate" ++ " " ++ "DeSc")) = "-" ++ "changedate" :=
  (c6_orderby_normalization.2.1 "changedate" " " "DeSc" (by decide) (by decide) (by decide)
    (by decide)).2 (by decide)

/-!
### C2 — missing credential fails fast with zero network calls
-/

/-- C2: for every chat-turn request whose resolved provider configuration
has an empty (falsy) credential, the handler returns the typed
`missing_api_key` configuration error with status 400 and the list of
outbound network calls is empty: no provider completion, no broker
catalog fetch, no broker invoke. -/
theorem c2_missing_credential (mcpD : String) (s parsed : JsValue) (net : Nat → FetchOut)
    (pv : JsValue) (cfg : ProviderCfg)
    (hpv : jsGetE parsed "provider" = .ok pv)
    (hcfg : providerConfig (jsToLower (jsToString (jsOr pv (str "openai")))) s = .ok cfg)
    (hkey : jsTruthy cfg.key = false) :
    agentChat mcpD s parsed net =
      (jsonResp 400 (obj [("error", str "missing_api_key"),
        ("detail", str ("Missing " ++ jsToLower (jsToString (jsOr pv (str "openai"))) ++ " API key"))]), []) := by
  have hpre : chatPrelude mcpD s parsed = .error (jsonResp 400 (obj [("error", str "missing_api_key"),
      ("detail", str ("Missing " ++ jsToLower (jsToString (jsOr pv (str "openai"))) ++ " API key"))])) := by
    unfold chatPrelude
    rw [hpv]
    simp [Except.mapError, hcfg, hkey, bind, Except.bind, throw, throwThe, MonadExceptOf.throw]
  unfold agentChat
  rw [hpre]

/-- Witness for C2: a request against settings holding no OpenAI key. -/
theorem c2_missing_credential_witness :
    agentChat "http://mcp-server:8081" wSettingsNoKey wParsed wNetZero =
      (jsonResp 400 (obj [("error", str "missing_api_key"),
        ("detail", str ("Missing " ++ jsToLower (jsToString (jsOr JsValue.undef (str "openai"))) ++ " API key"))]), []) :=
  c2_missing_credential "http://mcp-server:8081" wSettingsNoKey wParsed wNetZero JsValue.undef
    { provider := "openai", key := str "", base := "https://api.openai.com" }
    (by decide) (by decide) (by decide)

/-!
### C4 — normalizer output shape (corrected)
-/

/-- C4 counterexample: a record that matches the canonical-form guard with
a truthy but non-string `name` (the empty array) is copied through with an
EMPTY name: the normalizer can emit a tool whose name is `""`, refuting
the claim that every emitted tool has a non-empty name. -/
theorem c4_counterexample :
    toOpenAITools (arr [obj [("type", str "function"), ("function", obj [("name", arr [])])]])
      = [obj [("type", str "function"), ("function", obj [("name", str ""),
          ("description", str ""), ("parameters", openSchema)])]] := by decide

/-- C4 (amended): every emitted tool has type `"function"`, a string name,
a string description, and a `parameters` field that is either the open
object schema or the source record's truthy object-typed schema value; a
record is dropped (silently) exactly when it fails the canonical-form
guard and has no usable broker-native name; and the normalizer is a
`filterMap`, so the relative order of kept records is preserved. -/
theorem c4_normalizer_shape :
    (∀ raw t, t ∈ toOpenAITools raw → ∃ n d p,
      t = obj [("type", str "function"), ("function", obj [("name", str n),
        ("description", str d), ("parameters", p)])] ∧
      (p = openSchema ∨ (jsTruthy p = true ∧ jsTypeofObj p = true))) ∧
    (∀ t, convertTool t = none ↔
      (¬(jsTruthy t ∧ jsGetU t "type" = str "function" ∧ jsTruthy (jsGetU t "function") ∧
        jsTruthy (jsGetU (jsGetU t "function") "name")) ∧
       jsTrim (jsToString (jsOr (jsChain1 t "name") (str ""))) = "")) ∧
    (∀ raw, toOpenAITools raw =
      (match raw with | .arr l => l | _ => []).filterMap convertTool) := by
  refine ⟨?_, ?_, fun raw => rfl⟩
  · intro raw t ht
    unfold toOpenAITools at ht
    rw [List.mem_filterMap] at ht
    obtain ⟨x, _, hconv⟩ := ht
    unfold convertTool at hconv
    split_ifs at hconv with h1 h2 h3 h4 <;>
      first
      | exact Option.noConfusion hconv
      | (rw [Option.some.injEq] at hconv; subst hconv;
         first
         | exact ⟨_, _, _, rfl, Or.inr ⟨h2.1, h2.2⟩⟩
         | exact ⟨_, _, _, rfl, Or.inr ⟨h4.1, h4.2⟩⟩
         | exact ⟨_, _, _, rfl, Or.inl rfl⟩)
  · intro t
    unfold convertTool
    split_ifs with h1 h2 h3 h4 <;> simp_all

/-- Witness for C4 at a broker-native record. -/
theorem c4_normalizer_shape_witness :
    ∃ n d p,
      obj [("type", str "function"), ("function", obj [("name", str "maximo.listOS"),
        ("description", str ""), ("parameters", openSchema)])] =
      obj [("type", str "function"), ("function", obj [("name", str n),
        ("description", str d), ("parameters", p)])] ∧
      (p = openSchema ∨ (jsTruthy p = true ∧ jsTypeofObj p = true)) :=
  c4_normalizer_shape.1 (arr [obj [("name", str "maximo.listOS")]])
    (obj [("type", str "function"), ("function", obj [("name", str "maximo.listOS"),
      ("description", str ""), ("parameters", openSchema)])]) (by decide)

/-!
### C8 — normalizer idempotence on canonical input
-/

theorem convertTool_canonical (n d : String) (p : JsValue) (hn : n ≠ "")
    (hp1 : jsTruthy p = true) (hp2 : jsTypeofObj p = true) :
    convertTool (obj [("type", str "function"), ("function", obj [("name", str n),
      ("description", str d), ("parameters", p)])]) =
    some (obj [("type", str "function"), ("function", obj [("name", str n),
      ("description", str d), ("parameters", p)])]) := by
  unfold convertTool
  rw [if_pos ?side]
  case side =>
    refine ⟨by simp [jsTruthy], ?_, ?_, ?_⟩
    · simp [jsGetU, objLookup, List.find?]
    · simp [jsGetU, objLookup, List.find?, jsTruthy]
    · simp [jsGetU, objLookup, List.find?, jsTruthy, hn]
  · simp only [jsGetU, objLookup, List.find?]
    norm_num
    refine ⟨by simp [jsToString], ?_, ?_⟩
    · by_cases hd : d = "" <;> simp [jsOr, jsTruthy, hd, jsToString]
    · simp [hp1, hp2]

theorem toOpenAITools_canonical_fix (l : List JsValue) (h : ∀ t ∈ l, isCanonicalTool t) :
    toOpenAITools (arr l) = l := by
  show l.filterMap convertTool = l
  induction l with
  | nil => rfl
  | cons t r ih =>
    obtain ⟨n, d, p, htv, hn, hp1, hp2⟩ := h t (by simp)
    rw [List.filterMap_cons, htv, convertTool_canonical n d p hn hp1 hp2,
      ih fun x hx => h x (by simp [hx])]

/-- C8: the schema normalizer is idempotent on canonical input: for every
input sequence of canonical tools, normalizing twice equals normalizing
once (indeed normalization is the identity there). -/
theorem c8_normalizer_idempotent (l : List JsValue) (h : ∀ t ∈ l, isCanonicalTool t) :
    toOpenAITools (arr (toOpenAITools (arr l))) = toOpenAITools (arr l) := by
  rw [toOpenAITools_canonical_fix l h, toOpenAITools_canonical_fix l h]

/-- Witness for C8 at a one-element canonical catalog. -/
theorem c8_normalizer_idempotent_witness :
    toOpenAITools (arr (toOpenAITools (arr [obj [("type", str "function"),
      ("function", obj [("name", str "maximo.listOS"), ("description", str ""),
        ("parameters", openSchema)])]]))) =
    toOpenAITools (arr [obj [("type", str "function"),
      ("function", obj [("name", str "maximo.listOS"), ("description", str ""),
        ("parameters", openSchema)])]]) :=
  c8_normalizer_idempotent _ (by
    intro t ht
    rw [List.mem_singleton] at ht
    subst ht
    exact ⟨"maximo.listOS", "", openSchema, rfl, by decide, by decide, by decide⟩)

/-!
### C5 — settings save and the credential field (corrected)
-/

theorem objInsert_lookup_self (k : String) (v : JsValue) :
    ∀ l, objLookup (objInsert l k v) k = some v := by
  intro l
  induction l with
  | nil => simp [objInsert, objLookup, List.find?]
  | cons p r ih =>
    obtain ⟨k0, v0⟩ := p
    by_cases h : k0 = k
    · simp [objInsert, h, objLookup, List.find?]
    · simpa [objInsert, h, objLookup, List.find?] using ih

theorem objInsert_lookup_ne (k k' : String) (v : JsValue) (h : k' ≠ k) :
    ∀ l, objLookup (objInsert l k v) k' = objLookup l k' := by
  intro l
  induction l with
  | nil => simp [objInsert, objLookup, List.find?, Ne.symm h]
  | cons p r ih =>
    obtain ⟨k0, v0⟩ := p
    by_cases h0 : k0 = k
    · subst h0
      simp [objInsert, objLookup, List.find?, Ne.symm h]
    · by_cases h1 : k0 = k'
      · simp [objInsert, h0, objLookup, List.find?, h1, h]
      · simpa [objInsert, h0, objLookup, List.find?, h1] using ih

theorem setKeyE_get_ne (v w : JsValue) (k k' : String) (x : JsValue)
    (hok : setKeyE v k x = .ok w) (h : k' ≠ k) : jsGetU w k' = jsGetU v k' := by
  cases v with
  | obj l =>
    simp only [setKeyE, Except.ok.injEq] at hok
    subst hok
    simp [jsGetU, objInsert_lookup_ne k k' x h]
  | arr l =>
    simp only [setKeyE, Except.ok.injEq] at hok
    subst hok
    rfl
  | undef => exact absurd hok (by simp [setKeyE])
  | null => exact absurd hok (by simp [setKeyE])
  | bool b => exact absurd hok (by simp [setKeyE])
  | num n => exact absurd hok (by simp [setKeyE])
  | str s => exact absurd hok (by simp [setKeyE])

theorem setKeyE_obj_get_self (l : List (String × JsValue)) (k : String) (x w : JsValue)
    (hok : setKeyE (obj l) k x = .ok w) : jsGetU w k = x := by
  simp only [setKeyE, Except.ok.injEq] at hok
  subst hok
  simp [jsGetU, objInsert_lookup_self]

theorem setKeyE_obj_out (l : List (String × JsValue)) (k : String) (x w : JsValue)
    (hok : setKeyE (obj l) k x = .ok w) : ∃ m, w = obj m := by
  simp only [setKeyE, Except.ok.injEq] at hok
  exact ⟨_, hok.symm⟩

theorem saveStepUI_pres (payload next w : JsValue) (hok : saveStepUI payload next = .ok w)
    (k : String) (hk : k ≠ "ui") : jsGetU w k = jsGetU next k := by
  unfold saveStepUI at hok
  split_ifs at hok with h1
  · by_cases hn : jsNullish next = true
    · simp [jsGetE, hn, bind, Except.bind] at hok
    · simp only [jsGetE, hn, Bool.false_eq_true, if_false, bind, Except.bind] at hok
      exact setKeyE_get_ne _ _ _ _ _ hok hk
  · simp only [pure, Except.pure, Except.ok.injEq] at hok
    rw [hok]

theorem saveStepMaximo_pres (payload next w : JsValue)
    (hok : saveStepMaximo payload next = .ok w)
    (k : String) (hk : k ≠ "maximo") : jsGetU w k = jsGetU next k := by
  unfold saveStepMaximo at hok
  split_ifs at hok with h1
  · by_cases hn : jsNullish next = true
    · simp [jsGetE, hn, bind, Except.bind] at hok
    · simp only [jsGetE, hn, Bool.false_eq_true, if_false, bind, Except.bind] at hok
      exact setKeyE_get_ne _ _ _ _ _ hok hk
  · simp only [pure, Except.pure, Except.ok.injEq] at hok
    rw [hok]

theorem saveStepMcp_pres (payload next w : JsValue)
    (hok : saveStepMcp payload next = .ok w)
    (k : String) (hk : k ≠ "mcp") : jsGetU w k = jsGetU next k := by
  unfold saveStepMcp at hok
  split_ifs at hok with h1
  · by_cases hn : jsNullish next = true
    · simp [jsGetE, hn, bind, Except.bind] at hok
    · simp only [jsGetE, hn, Bool.false_eq_true, if_false, bind, Except.bind] at hok
      exact setKeyE_get_ne _ _ _ _ _ hok hk
  · simp only [pure, Except.pure, Except.ok.injEq] at hok
    rw [hok]

theorem saveStepTenants_pres (payload next w : JsValue)
    (hok : saveStepTenants payload next = .ok w)
    (k : String) (hk : k ≠ "tenants") : jsGetU w k = jsGetU next k := by
  unfold saveStepTenants at hok
  cases hpt : jsGetU payload "tenants" with
  | arr ts =>
    rw [hpt] at hok
    simp only [bind, Except.bind] at hok
    cases hm : mapTenants ts with
    | error e => rw [hm] at hok; exact absurd hok (by simp)
    | ok mapped =>
      rw [hm] at hok
      exact setKeyE_get_ne _ _ _ _ _ hok hk
  | undef => rw [hpt] at hok; simp only [pure, Except.pure, Except.ok.injEq] at hok; rw [hok]
  | null => rw [hpt] at hok; simp only [pure, Except.pure, Except.ok.injEq] at hok; rw [hok]
  | bool b => rw [hpt] at hok; simp only [pure, Except.pure, Except.ok.injEq] at hok; rw [hok]
  | num n => rw [hpt] at hok; simp only [pure, Except.pure, Except.ok.injEq] at hok; rw [hok]
  | str s => rw [hpt] at hok; simp only [pure, Except.pure, Except.ok.injEq] at hok; rw [hok]
  | obj o => rw [hpt] at hok; simp only [pure, Except.pure, Except.ok.injEq] at hok; rw [hok]

theorem deleteKey_no_key (l : List (String × JsValue)) (k : String) :
    objHasKey (obj (deleteKey l k)) k = false := by
  simp only [objHasKey, deleteKey]
  rw [List.any_eq_false]
  intro p hp
  rw [List.mem_filter] at hp
  simpa using hp.2

theorem saveStepMaximo_strips (payload next w : JsValue)
    (hok : saveStepMaximo payload next = .ok w)
    (h1 : jsTruthy (jsGetU payload "maximo") = true)
    (h2 : jsTypeofObj (jsGetU payload "maximo") = true) :
    objHasKey (jsGetU w "maximo") "apiKey" = false := by
  unfold saveStepMaximo at hok
  rw [if_pos ⟨h1, h2⟩] at hok
  by_cases hn : jsNullish next = true
  · simp [jsGetE, hn, bind, Except.bind] at hok
  · simp only [jsGetE, hn, Bool.false_eq_true, if_false, bind, Except.bind] at hok
    cases next with
    | obj l =>
      rw [setKeyE_obj_get_self _ _ _ _ hok]
      exact deleteKey_no_key _ _
    | arr l =>
      simp only [setKeyE, Except.ok.injEq] at hok
      subst hok
      rfl
    | undef => simp [jsNullish] at hn
    | null => simp [jsNullish] at hn
    | bool b => simp [setKeyE] at hok
    | num n => simp [setKeyE] at hok
    | str s => simp [setKeyE] at hok

theorem saveStepMaximo_skip (payload next : JsValue)
    (h : ¬(jsTruthy (jsGetU payload "maximo") = true ∧
      jsTypeofObj (jsGetU payload "maximo") = true)) :
    saveStepMaximo payload next = .ok next := by
  unfold saveStepMaximo
  rw [if_neg h]
  rfl

theorem objLookup_any (l : List (String × JsValue)) (k : String) (x : JsValue)
    (h : objLookup l k = some x) : l.any (fun p => p.1 = k) = true := by
  induction l with
  | nil => simp [objLookup, List.find?] at h
  | cons p r ih =>
    obtain ⟨k0, v0⟩ := p
    by_cases h0 : k0 = k
    · simp [h0]
    · simp only [List.any_cons, h0, decide_eq_true_eq, Bool.false_or, decide_eq_false h0]
      exact ih (by simpa [objLookup, List.find?, h0] using h)

theorem objGet_hasKey (v : JsValue) (k : String) (x : JsValue) (h : objGet v k = some x) :
    objHasKey v k = true := by
  cases v <;> simp [objGet] at h
  case obj l => exact objLookup_any l k x h

theorem jsGetU_arr_objlike (payload : JsValue) (k : String) (ts : List JsValue)
    (h : jsGetU payload k = arr ts) :
    jsTruthy payload = true ∧ jsTypeofObj payload = true := by
  cases payload with
  | obj l => exact ⟨rfl, rfl⟩
  | arr l =>
    exact ⟨rfl, rfl⟩
  | str s =>
    exfalso
    simp only [jsGetU] at h
    split_ifs at h
    rcases hq : strToNatQ k with _ | i
    · rw [hq] at h; simp at h
    · rw [hq] at h
      rcases hg : s.data[i]? with _ | c <;>
        simp [List.get?_eq_getElem?, hg] at h
  | undef => exact absurd h (by simp [jsGetU])
  | null => exact absurd h (by simp [jsGetU])
  | bool b => exact absurd h (by simp [jsGetU])
  | num n => exact absurd h (by simp [jsGetU])

theorem saveStepUI_obj (payload : JsValue) (cl : List (String × JsValue)) (w : JsValue)
    (hok : saveStepUI payload (obj cl) = .ok w) : ∃ m, w = obj m := by
  unfold saveStepUI at hok
  split_ifs at hok with h1
  · simp only [jsGetE, jsNullish, Bool.false_eq_true, if_false, bind, Except.bind] at hok
    exact setKeyE_obj_out _ _ _ _ hok
  · simp only [pure, Except.pure, Except.ok.injEq] at hok
    exact ⟨cl, hok.symm⟩

theorem saveStepMaximo_obj (payload : JsValue) (cl : List (String × JsValue)) (w : JsValue)
    (hok : saveStepMaximo payload (obj cl) = .ok w) : ∃ m, w = obj m := by
  unfold saveStepMaximo at hok
  split_ifs at hok with h1
  · simp only [jsGetE, jsNullish, Bool.false_eq_true, if_false, bind, Except.bind] at hok
    exact setKeyE_obj_out _ _ _ _ hok
  · simp only [pure, Except.pure, Except.ok.injEq] at hok
    exact ⟨cl, hok.symm⟩

theorem saveStepMcp_obj (payload : JsValue) (cl : List (String × JsValue)) (w : JsValue)
    (hok : saveStepMcp payload (obj cl) = .ok w) : ∃ m, w = obj m := by
  unfold saveStepMcp at hok
  split_ifs at hok with h1
  · simp only [jsGetE, jsNullish, Bool.false_eq_true, if_false, bind, Except.bind] at hok
    exact setKeyE_obj_out _ _ _ _ hok
  · simp only [pure, Except.pure, Except.ok.injEq] at hok
    exact ⟨cl, hok.symm⟩

theorem save_chain (cur payload next : JsValue)
    (hobj : jsTruthy payload = true ∧ jsTypeofObj payload = true)
    (hs : saveSettingsFromUI cur payload = .ok next) :
    ∃ n1 n2 n3, saveStepUI payload cur = .ok n1 ∧ saveStepMaximo payload n1 = .ok n2 ∧
      saveStepMcp payload n2 = .ok n3 ∧ saveStepTenants payload n3 = .ok next := by
  unfold saveSettingsFromUI at hs
  rw [if_pos hobj] at hs
  simp only [bind, Except.bind] at hs
  cases h1 : saveStepUI payload cur with
  | error e => simp only [h1] at hs; exact Except.noConfusion hs
  | ok n1 =>
    simp only [h1] at hs
    cases h2 : saveStepMaximo payload n1 with
    | error e => simp only [h2] at hs; exact Except.noConfusion hs
    | ok n2 =>
      simp only [h2] at hs
      cases h3 : saveStepMcp payload n2 with
      | error e => simp only [h3] at hs; exact Except.noConfusion hs
      | ok n3 =>
        simp only [h3] at hs
        exact ⟨n1, n2, n3, rfl, h2, h3, hs⟩

theorem payload_obj_of_truthy_maximo (payload : JsValue)
    (h1 : jsTruthy (jsGetU payload "maximo") = true) :
    jsTruthy payload = true ∧ jsTypeofObj payload = true := by
  cases payload with
  | obj l => exact ⟨rfl, rfl⟩
  | arr l =>
    rw [show jsGetU (arr l) "maximo" = undef by
      simp only [jsGetU]
      rw [if_neg (by decide), show strToNatQ "maximo" = none from by decide]] at h1
    exact absurd h1 (by decide)
  | str s =>
    rw [show jsGetU (str s) "maximo" = undef by
      simp only [jsGetU]
      rw [if_neg (by decide), show strToNatQ "maximo" = none from by decide]] at h1
    exact absurd h1 (by decide)
  | undef => exact absurd h1 (by decide)
  | null => exact absurd h1 (by decide)
  | bool b => exact absurd (show jsTruthy undef = true from h1) (by decide)
  | num n => exact absurd (show jsTruthy undef = true from h1) (by decide)

/-- C5 counterexample: with an empty save payload, a credential already
present in the stored settings is written back verbatim — the written
value does contain a secret credential field, refuting the claim as
universally stated over payloads. -/
theorem c5_counterexample :
    saveSettingsFromUI (obj [("maximo", obj [("apiKey", str "sec")])]) (obj []) =
      .ok (obj [("maximo", obj [("apiKey", str "sec")])]) := by decide

/-- C5 (amended): any API-key field in the written `maximo` section was
already present with the same value in the stored settings (a payload
credential never survives); whenever the payload carries a `maximo`
object the written `maximo` section has no `apiKey` at all; a save only
rewrites the `ui`, `maximo`, `mcp` and `tenants` keys; and a tenants
payload is persisted as the sanitized records filtered to those with a
non-empty id. -/
theorem c5_save_strips_payload_credential :
    (∀ cur payload next v, saveSettingsFromUI cur payload = .ok next →
      objGet (jsGetU next "maximo") "apiKey" = some v →
      objGet (jsGetU cur "maximo") "apiKey" = some v) ∧
    (∀ cur payload next, saveSettingsFromUI cur payload = .ok next →
      jsTruthy (jsGetU payload "maximo") = true →
      jsTypeofObj (jsGetU payload "maximo") = true →
      objHasKey (jsGetU next "maximo") "apiKey" = false) ∧
    (∀ cur payload next k, saveSettingsFromUI cur payload = .ok next →
      k ≠ "ui" → k ≠ "maximo" → k ≠ "mcp" → k ≠ "tenants" →
      jsGetU next k = jsGetU cur k) ∧
    (∀ cl payload next ts, saveSettingsFromUI (obj cl) payload = .ok next →
      jsGetU payload "tenants" = arr ts →
      ∃ mapped, mapTenants ts = .ok mapped ∧
        jsGetU next "tenants" = arr (mapped.filter fun t => jsTruthy (jsGetU t "id"))) := by
  refine ⟨?_, ?_, ?_, ?_⟩
  · intro cur payload next v hs hget
    by_cases hobj : jsTruthy payload = true ∧ jsTypeofObj payload = true
    · obtain ⟨n1, n2, n3, s1, s2, s3, s4⟩ := save_chain cur payload next hobj hs
      by_cases hmx : jsTruthy (jsGetU payload "maximo") = true ∧
          jsTypeofObj (jsGetU payload "maximo") = true
      · have hnone : objHasKey (jsGetU next "maximo") "apiKey" = false := by
          rw [saveStepTenants_pres _ _ _ s4 _ (by decide),
            saveStepMcp_pres _ _ _ s3 _ (by decide)]
          exact saveStepMaximo_strips _ _ _ s2 hmx.1 hmx.2
        exact absurd (objGet_hasKey _ _ _ hget) (by simp [hnone])
      · rw [saveStepMaximo_skip payload n1 hmx, Except.ok.injEq] at s2
        subst s2
        rw [saveStepTenants_pres _ _ _ s4 _ (by decide),
          saveStepMcp_pres _ _ _ s3 _ (by decide),
          saveStepUI_pres _ _ _ s1 _ (by decide)] at hget
        exact hget
    · unfold saveSettingsFromUI at hs
      rw [if_neg hobj] at hs
      simp only [pure, Except.pure, Except.ok.injEq] at hs
      subst hs
      exact hget
  · intro cur payload next hs h1 h2
    obtain ⟨n1, n2, n3, s1, s2, s3, s4⟩ :=
      save_chain cur payload next (payload_obj_of_truthy_maximo payload h1) hs
    rw [saveStepTenants_pres _ _ _ s4 _ (by decide),
      saveStepMcp_pres _ _ _ s3 _ (by decide)]
    exact saveStepMaximo_strips _ _ _ s2 h1 h2
  · intro cur payload next k hs k1 k2 k3 k4
    by_cases hobj : jsTruthy payload = true ∧ jsTypeofObj payload = true
    · obtain ⟨n1, n2, n3, s1, s2, s3, s4⟩ := save_chain cur payload next hobj hs
      rw [saveStepTenants_pres _ _ _ s4 _ k4, saveStepMcp_pres _ _ _ s3 _ k3,
        saveStepMaximo_pres _ _ _ s2 _ k2, saveStepUI_pres _ _ _ s1 _ k1]
    · unfold saveSettingsFromUI at hs
      rw [if_neg hobj] at hs
      simp only [pure, Except.pure, Except.ok.injEq] at hs
      rw [hs]
  · intro cl payload next ts hs hpt
    obtain ⟨n1, n2, n3, s1, s2, s3, s4⟩ :=
      save_chain (obj cl) payload next (jsGetU_arr_objlike payload "tenants" ts hpt) hs
    obtain ⟨m1, hm1⟩ := saveStepUI_obj _ _ _ s1
    subst hm1
    obtain ⟨m2, hm2⟩ := saveStepMaximo_obj _ _ _ s2
    subst hm2
    obtain ⟨m3, hm3⟩ := saveStepMcp_obj _ _ _ s3
    subst hm3
    unfold saveStepTenants at s4
    rw [hpt] at s4
    simp only [bind, Except.bind] at s4
    cases hm : mapTenants ts with
    | error e => simp only [hm] at s4; exact Except.noConfusion s4
    | ok mapped =>
      simp only [hm] at s4
      exact ⟨mapped, rfl, setKeyE_obj_get_self _ _ _ _ s4⟩

/-- Witness for C5: a payload carrying a `maximo` section strips the
stored credential from the written value. -/
theorem c5_save_strips_payload_credential_witness :
    objHasKey (jsGetU (obj [("maximo", obj [("baseUrl", str "b")])]) "maximo") "apiKey" = false :=
  c5_save_strips_payload_credential.2.1 (obj [("maximo", obj [("apiKey", str "sec")])])
    (obj [("maximo", obj [("baseUrl", str "b")])])
    (obj [("maximo", obj [("baseUrl", str "b")])])
    (by decide) (by decide) (by decide)

/-!
### C3 — tenant resolution order (corrected) and C10 — precedence
-/

theorem findTenantRec_ok (target : String) (l : List JsValue)
    (h : ∀ x ∈ l, jsNullish x = false) : ∃ o, findTenantRec target l = .ok o := by
  induction l with
  | nil => exact ⟨none, rfl⟩
  | cons x r ih =>
    unfold findTenantRec
    rw [h x (by simp)]
    simp only [Bool.false_eq_true, if_false]
    by_cases hx : jsToString (jsGetU x "id") = target
    · rw [if_pos hx]
      exact ⟨some x, rfl⟩
    · rw [if_neg hx]
      exact ih fun y hy => h y (by simp [hy])

theorem resolveTenant_find_eq (s tid : JsValue) :
    findTenantRec (jsToString (jsOr tid (jsOr (str (jsToString (jsOr
        (jsChain1 (jsGetU s "maximo") "defaultTenant") (str "default")))) (str "default"))))
      (match jsGetU s "tenants" with | .arr l => l | _ => []) =
    findTenantRec (requestedIdOf s tid) (tenantsOf s) := rfl

theorem resolveTenant_find_default_eq (s : JsValue) :
    findTenantRec "default" (match jsGetU s "tenants" with | .arr l => l | _ => []) =
      findTenantRec "default" (tenantsOf s) := rfl

/-- C3 counterexample: with an unknown tenant id and no `"default"`
registry entry, but a globally configured backend base URL, the resolved
tenant is NOT empty — the base URL falls back to the settings value. -/
theorem c3_counterexample :
    resolveTenant wEnv
      (obj [("tenants", arr []), ("maximo", obj [("baseUrl", str "http://x")])]) (str "foo") =
      .ok { id := "foo", baseUrl := "http://x/maximo", apiBase := "http://x/maximo/api",
            apiKey := str "", site := "", org := str "" } := by decide

/-- C3 (amended): tenant resolution never throws when the settings value
is non-nullish and the registry contains no nullish entry; the record is
picked by exact id match, then by id `"default"`, then the empty record;
and with the empty record the resolved fields fall back to global
settings and environment, collapsing to the empty resolved tenant only
when those sources are empty too. -/
theorem c3_resolution_order :
    (∀ env s tid, jsNullish s = false → (∀ x ∈ tenantsOf s, jsNullish x = false) →
      ∃ r, resolveTenant env s tid = .ok r) ∧
    (∀ env s tid v, jsNullish s = false →
      findTenantRec (requestedIdOf s tid) (tenantsOf s) = .ok (some v) → jsTruthy v = true →
      resolveTenant env s tid = .ok (resolveFromRecord env s (requestedIdOf s tid) v)) ∧
    (∀ env s tid w, jsNullish s = false →
      findTenantRec (requestedIdOf s tid) (tenantsOf s) = .ok none →
      findTenantRec "default" (tenantsOf s) = .ok (some w) → jsTruthy w = true →
      resolveTenant env s tid = .ok (resolveFromRecord env s (requestedIdOf s tid) w)) ∧
    (∀ env s tid, jsNullish s = false →
      findTenantRec (requestedIdOf s tid) (tenantsOf s) = .ok none →
      findTenantRec "default" (tenantsOf s) = .ok none →
      resolveTenant env s tid = .ok (resolveFromRecord env s (requestedIdOf s tid) (obj []))) ∧
    (∀ env s tid r, env.MAXIMO_URL = "" → env.MAXIMO_APIKEY = "" → env.DEFAULT_SITEID = "" →
      jsTruthy (jsChain1 (jsGetU s "maximo") "baseUrl") = false →
      jsTruthy (jsChain1 (jsGetU s "maximo") "apiKey") = false →
      jsTruthy (jsChain1 (jsGetU s "maximo") "defaultSite") = false →
      r = resolveFromRecord env s (requestedIdOf s tid) (obj []) →
      r.baseUrl = "" ∧ r.apiBase = "" ∧ r.apiKey = str "" ∧ r.site = "" ∧ r.org = str "") := by
  refine ⟨?_, ?_, ?_, ?_, ?_⟩
  · intro env s tid hs hnn
    unfold resolveTenant
    simp only [jsGetE, hs, Bool.false_eq_true, if_false, bind, Except.bind]
    rw [resolveTenant_find_eq]
    obtain ⟨o1, h1⟩ := findTenantRec_ok (requestedIdOf s tid) (tenantsOf s) hnn
    rw [h1]
    by_cases ht : jsTruthy (o1.getD .undef) = true
    · simp only [ht, if_true, pure, Except.pure]
      exact ⟨_, rfl⟩
    · simp only [ht, Bool.false_eq_true, if_false]
      obtain ⟨o2, h2⟩ := findTenantRec_ok "default" (tenantsOf s) hnn
      rw [resolveTenant_find_default_eq, h2]
      simp only [pure, Except.pure]
      exact ⟨_, rfl⟩
  · intro env s tid v hs h1 hv
    unfold resolveTenant
    simp only [jsGetE, hs, Bool.false_eq_true, if_false, bind, Except.bind]
    rw [resolveTenant_find_eq, h1]
    simp only [Option.getD, hv, if_true, pure, Except.pure]
    rfl
  · intro env s tid w hs h1 h2 hw
    unfold resolveTenant
    simp only [jsGetE, hs, Bool.false_eq_true, if_false, bind, Except.bind]
    rw [resolveTenant_find_eq, h1]
    simp only [Option.getD, jsTruthy, Bool.false_eq_true, if_false]
    rw [resolveTenant_find_default_eq, h2]
    simp only [Option.getD, pure, Except.pure, jsOr, hw, if_true]
    rfl
  · intro env s tid hs h1 h2
    unfold resolveTenant
    simp only [jsGetE, hs, Bool.false_eq_true, if_false, bind, Except.bind]
    rw [resolveTenant_find_eq, h1]
    simp only [Option.getD, jsTruthy, Bool.false_eq_true, if_false]
    rw [resolveTenant_find_default_eq, h2]
    simp only [Option.getD, pure, Except.pure, jsOr, jsTruthy, Bool.false_eq_true, if_false]
    rfl
  · intro env s tid r he1 he2 he3 hb hak hds hr
    subst hr
    unfold resolveFromRecord
    rw [he1, he2, he3]
    have hu : jsTruthy JsValue.undef = false := by decide
    have he : jsTruthy (str "") = false := by decide
    have hbase : jsOr (jsGetU (obj []) "maximoBaseUrl")
        (jsOr (jsChain1 (jsGetU s "maximo") "baseUrl") (jsOr (str "") (str ""))) = str "" := by
      rw [show jsGetU (obj []) "maximoBaseUrl" = JsValue.undef from rfl]
      simp only [jsOr, hb, hu, he, Bool.false_eq_true, if_false]
    have hkey : jsOr (str "") (jsOr (jsChain1 (jsGetU s "maximo") "apiKey") (str "")) =
        str "" := by
      simp only [jsOr, hak, he, Bool.false_eq_true, if_false]
    have hsite : jsOr (jsGetU (obj []) "site")
        (jsOr (jsChain1 (jsGetU s "maximo") "defaultSite") (jsOr (str "") (str ""))) = str "" := by
      rw [show jsGetU (obj []) "site" = JsValue.undef from rfl]
      simp only [jsOr, hds, hu, he, Bool.false_eq_true, if_false]
    dsimp only
    rw [hbase, hkey, hsite]
    exact ⟨rfl, rfl, rfl, rfl, rfl⟩

/-- Witness for C3: a concrete registry with an exact-id match resolves
through the amended order to that record. -/
theorem c3_resolution_order_witness :
    resolveTenant wEnv
      (obj [("tenants", arr [obj [("id", str "t1"), ("maximoBaseUrl", str "http://m")]])])
      (str "t1") =
    .ok (resolveFromRecord wEnv
      (obj [("tenants", arr [obj [("id", str "t1"), ("maximoBaseUrl", str "http://m")]])])
      (requestedIdOf
        (obj [("tenants", arr [obj [("id", str "t1"), ("maximoBaseUrl", str "http://m")]])])
        (str "t1"))
      (obj [("id", str "t1"), ("maximoBaseUrl", str "http://m")])) :=
  c3_resolution_order.2.1 wEnv
    (obj [("tenants", arr [obj [("id", str "t1"), ("maximoBaseUrl", str "http://m")]])])
    (str "t1")
    (obj [("id", str "t1"), ("maximoBaseUrl", str "http://m")])
    (by decide) (by decide) (by decide)

/-- C10: every successfully resolved tenant is built by the record
resolver, whose base-URL precedence is tenant record over persisted
settings over the `MAXIMO_URL` environment variable, while the
credential precedence is reversed: the `MAXIMO_APIKEY` environment
variable wins over the persisted settings value. -/
theorem c10_resolution_precedence :
    (∀ env s tid r, resolveTenant env s tid = .ok r →
      ∃ t, r = resolveFromRecord env s (requestedIdOf s tid) t) ∧
    (∀ env s id t, jsTruthy (jsGetU t "maximoBaseUrl") = true →
      (resolveFromRecord env s id t).baseUrl = normMaximoBase (jsGetU t "maximoBaseUrl")) ∧
    (∀ env s id t, jsTruthy (jsGetU t "maximoBaseUrl") = false →
      jsTruthy (jsChain1 (jsGetU s "maximo") "baseUrl") = true →
      (resolveFromRecord env s id t).baseUrl =
        normMaximoBase (jsChain1 (jsGetU s "maximo") "baseUrl")) ∧
    (∀ env s id t, jsTruthy (jsGetU t "maximoBaseUrl") = false →
      jsTruthy (jsChain1 (jsGetU s "maximo") "baseUrl") = false →
      (resolveFromRecord env s id t).baseUrl =
        normMaximoBase (jsOr (str env.MAXIMO_URL) (str ""))) ∧
    (∀ env s id t, jsTruthy (str env.MAXIMO_APIKEY) = true →
      (resolveFromRecord env s id t).apiKey = str env.MAXIMO_APIKEY) ∧
    (∀ env s id t, jsTruthy (str env.MAXIMO_APIKEY) = false →
      (resolveFromRecord env s id t).apiKey =
        jsOr (jsChain1 (jsGetU s "maximo") "apiKey") (str "")) := by
  refine ⟨?_, ?_, ?_, ?_, ?_, ?_⟩
  · intro env s tid r hr
    by_cases hs : jsNullish s = true
    · unfold resolveTenant at hr
      simp only [jsGetE, hs, if_true, bind, Except.bind] at hr
      exact Except.noConfusion hr
    · rw [Bool.not_eq_true] at hs
      unfold resolveTenant at hr
      simp only [jsGetE, hs, Bool.false_eq_true, if_false, bind, Except.bind] at hr
      rw [resolveTenant_find_eq] at hr
      cases h1 : findTenantRec (requestedIdOf s tid) (tenantsOf s) with
      | error e => rw [h1] at hr; exact Except.noConfusion hr
      | ok o1 =>
        rw [h1] at hr
        by_cases ht : jsTruthy (o1.getD .undef) = true
        · simp only [ht, if_true, pure, Except.pure, Except.ok.injEq] at hr
          exact ⟨o1.getD .undef, hr.symm⟩
        · simp only [ht, Bool.false_eq_true, if_false] at hr
          rw [resolveTenant_find_default_eq] at hr
          cases h2 : findTenantRec "default" (tenantsOf s) with
          | error e => rw [h2] at hr; exact Except.noConfusion hr
          | ok o2 =>
            rw [h2] at hr
            simp only [pure, Except.pure, Except.ok.injEq] at hr
            exact ⟨jsOr (o2.getD .undef) (obj []), hr.symm⟩
  · intro env s id t h
    unfold resolveFromRecord
    dsimp only
    rw [show jsOr (jsGetU t "maximoBaseUrl") (jsOr (jsChain1 (jsGetU s "maximo") "baseUrl")
      (jsOr (str env.MAXIMO_URL) (str ""))) = jsGetU t "maximoBaseUrl" from by
        simp only [jsOr, h, if_true]]
  · intro env s id t h1 h2
    unfold resolveFromRecord
    dsimp only
    rw [show jsOr (jsGetU t "maximoBaseUrl") (jsOr (jsChain1 (jsGetU s "maximo") "baseUrl")
      (jsOr (str env.MAXIMO_URL) (str ""))) = jsChain1 (jsGetU s "maximo") "baseUrl" from by
        simp only [jsOr, h1, h2, Bool.false_eq_true, if_false, if_true]]
  · intro env s id t h1 h2
    unfold resolveFromRecord
    dsimp only
    rw [show jsOr (jsGetU t "maximoBaseUrl") (jsOr (jsChain1 (jsGetU s "maximo") "baseUrl")
      (jsOr (str env.MAXIMO_URL) (str ""))) = jsOr (str env.MAXIMO_URL) (str "") from by
        simp only [jsOr, h1, h2, Bool.false_eq_true, if_false]]
  · intro env s id t h
    unfold resolveFromRecord
    dsimp only
    simp only [jsOr, h, if_true]
  · intro env s id t h
    unfold resolveFromRecord
    dsimp only
    simp only [jsOr, h, Bool.false_eq_true, if_false]

/-- Witness for C10: with a tenant record carrying a base URL and a set
`MAXIMO_APIKEY`, the base URL comes from the record and the credential
from the environment. -/
theorem c10_resolution_precedence_witness :
    (resolveFromRecord wEnvKey (obj []) "x"
        (obj [("maximoBaseUrl", str "http://rec")])).baseUrl =
      normMaximoBase (jsGetU (obj [("maximoBaseUrl", str "http://rec")]) "maximoBaseUrl") ∧
    (resolveFromRecord wEnvKey (obj []) "x" (obj [])).apiKey = str wEnvKey.MAXIMO_APIKEY :=
  ⟨c10_resolution_precedence.2.1 wEnvKey (obj []) "x"
      (obj [("maximoBaseUrl", str "http://rec")]) (by decide),
    c10_resolution_precedence.2.2.2.2.1 wEnvKey (obj []) "x" (obj []) (by decide)⟩

/-- C9: on a successful `maximo.queryOS` invocation the trace record's
`apikey` header is the fixed mask `"***"`, and the returned response is
identical for any two runs that differ only in the credential value. -/
theorem c9_trace_redaction :
    (∀ tenant args r, jsTruthy (jsGetU (queryOSHandler tenant args r).1.body "ok") = true →
      jsGetU (jsGetU (jsGetU (jsGetU (queryOSHandler tenant args r).1.body "trace")
        "request") "headers") "apikey" = str "***") ∧
    (∀ (tenant : ResolvedTenant) (k1 k2 : JsValue) args r,
      (queryOSHandler { tenant with apiKey := k1 } args r).1 =
      (queryOSHandler { tenant with apiKey := k2 } args r).1) := by
  constructor
  · intro tenant args r
    unfold queryOSHandler
    dsimp only
    split
    · intro h; exact Bool.noConfusion h
    · split
      · split
        · intro h2; rfl
        · intro h; exact Bool.noConfusion h
      · intro h; exact Bool.noConfusion h
  · intro tenant k1 k2 args r
    obtain ⟨tid, tb, ta, tk, ts, torg⟩ := tenant
    unfold queryOSHandler
    dsimp only
    split
    · rfl
    · split
      · split
        · rfl
        · rfl
      · rfl

/-- Witness for C9: a concrete successful query yields the masked header. -/
theorem c9_trace_redaction_witness :
    jsGetU (jsGetU (jsGetU (jsGetU (queryOSHandler
      { id := "t", baseUrl := "b", apiBase := "a", apiKey := str "K", site := "", org := str "" }
      (obj [("os", str "asset")]) { ok := true, status := 200, text := "true" }).1.body "trace")
      "request") "headers") "apikey" = str "***" :=
  c9_trace_redaction.1
    { id := "t", baseUrl := "b", apiBase := "a", apiKey := str "K", site := "", org := str "" }
    (obj [("os", str "asset")]) { ok := true, status := 200, text := "true" } (by decide)

/-!
### C1 — two-round completion ceiling (corrected) and C7 — malformed
tool-call arguments (corrected)
-/

theorem mkInvokeCall_not_completion (u t : String) (tc : JsValue) :
    isCompletionCall (mkInvokeCall u t tc) = false := rfl

theorem map_invoke_completion_count (u t : String) (tcs : List JsValue) :
    List.countP isCompletionCall (tcs.map (mkInvokeCall u t)) = 0 := by
  induction tcs with
  | nil => rfl
  | cons tc r ih =>
    simp [List.countP_cons, mkInvokeCall_not_completion, ih]

theorem toolLoop_completion_count (u t : String) (net : Nat → FetchOut) :
    ∀ (tcs : List JsValue) (k : Nat),
      List.countP isCompletionCall (toolLoop u t net k tcs).1 = 0 := by
  intro tcs
  induction tcs with
  | nil => intro k; rfl
  | cons tc rest ih =>
    intro k
    unfold toolLoop
    dsimp only
    by_cases h : jsNullish tc = true
    · rw [if_pos h]
      simp [List.countP_cons, mkInvokeCall_not_completion]
    · rw [if_neg h]
      dsimp only
      rw [List.countP_cons, ih (k + 1), mkInvokeCall_not_completion]
      rfl

theorem toolLoop_no_null (u t : String) (net : Nat → FetchOut) :
    ∀ (tcs : List JsValue), (∀ tc ∈ tcs, jsNullish tc = false) → ∀ k,
      toolLoop u t net k tcs =
        (tcs.map (mkInvokeCall u t), .ok (toolMsgsSpec net k tcs)) := by
  intro tcs
  induction tcs with
  | nil => intro _ k; rfl
  | cons tc rest ih =>
    intro h k
    unfold toolLoop
    dsimp only
    rw [if_neg (by simp [h tc (by simp)])]
    rw [ih (fun y hy => h y (by simp [hy])) (k + 1)]
    rfl

theorem openaiCompat_calls_of_key (cfg : ProviderCfg) (m : String) (t : JsValue)
    (msgs : List JsValue) (tools : Option (List JsValue)) (r : FetchOut)
    (h : jsTruthy cfg.key = true) :
    (openaiCompatChat cfg m t msgs tools r).1 =
      [NetCall.completion (cfg.base ++ "/v1/chat/completions")
        ("Bearer " ++ jsToString cfg.key)
        { model := if m = "" then "gpt-4o-mini" else m
          temperature := jsNumberOr t
          messages := msgs
          tools := match tools with
            | some l => if l = [] then none else some l
            | none => none }] := by
  unfold openaiCompatChat
  rw [if_neg (by simp [h])]
  dsimp only
  cases hj : jsonParse r.text with
  | none => rfl
  | some j =>
    dsimp only
    split
    · rfl
    · rfl

theorem openaiCompat_ok_key (cfg : ProviderCfg) (m : String) (t : JsValue)
    (msgs : List JsValue) (tools : Option (List JsValue)) (r : FetchOut) (out : JsValue)
    (h : (openaiCompatChat cfg m t msgs tools r).2 = .ok out) : jsTruthy cfg.key = true := by
  by_cases hk : jsTruthy cfg.key = true
  · exact hk
  · exfalso
    rw [Bool.not_eq_true] at hk
    unfold openaiCompatChat at h
    rw [if_pos hk] at h
    exact Except.noConfusion h

theorem openaiCompat_completion_count (cfg : ProviderCfg) (m : String) (t : JsValue)
    (msgs : List JsValue) (tools : Option (List JsValue)) (r : FetchOut) :
    List.countP isCompletionCall (openaiCompatChat cfg m t msgs tools r).1 ≤ 1 := by
  unfold openaiCompatChat
  by_cases hk : jsTruthy cfg.key = false
  · rw [if_pos hk]
    exact Nat.zero_le 1
  · rw [if_neg hk]
    dsimp only
    cases hj : jsonParse r.text with
    | none => exact Nat.le_refl 1
    | some j =>
      dsimp only
      split
      · exact Nat.le_refl 1
      · exact Nat.le_refl 1

theorem toolsPhase_completion_count (p : ChatPrelude) (net : Nat → FetchOut) :
    List.countP isCompletionCall (toolsPhase p net).1 = 0 := by
  unfold toolsPhase
  split
  · rfl
  · rfl

theorem agentAfterFirst_completion_bound (p : ChatPrelude) (net : Nat → FetchOut)
    (callsAcc : List NetCall) (out1 : JsValue) :
    List.countP isCompletionCall (agentAfterFirst p net callsAcc out1).2 ≤
      List.countP isCompletionCall callsAcc + 1 := by
  unfold agentAfterFirst
  dsimp only
  split
  · exact Nat.le_succ _
  · cases hl : toolLoop p.mcpUrl p.tenant net callsAcc.length (toolCallsOf out1) with
    | mk ic res =>
      have hic : List.countP isCompletionCall ic = 0 := by
        have := toolLoop_completion_count p.mcpUrl p.tenant net (toolCallsOf out1) callsAcc.length
        rw [hl] at this
        exact this
      cases res with
      | error e =>
        dsimp only
        rw [List.countP_append, hic]
        exact Nat.le_succ _
      | ok tmsgs =>
        dsimp only
        cases h2 : openaiCompatChat p.cfg p.model p.temperature
            (p.messages ++ [assistantMsgOf out1] ++ tmsgs) none
            (net (callsAcc.length + ic.length)) with
        | mk c2 res2 =>
          have hc2 : List.countP isCompletionCall c2 ≤ 1 := by
            have := openaiCompat_completion_count p.cfg p.model p.temperature
              (p.messages ++ [assistantMsgOf out1] ++ tmsgs) none
              (net (callsAcc.length + ic.length))
            rw [h2] at this
            exact this
          cases res2 with
          | error e =>
            dsimp only
            rw [List.countP_append, List.countP_append, hic]
            omega
          | ok out2 =>
            dsimp only
            rw [List.countP_append, List.countP_append, hic]
            omega

theorem agentAfterFirst_trace_no_null (p : ChatPrelude) (net : Nat → FetchOut)
    (callsAcc : List NetCall) (out1 : JsValue)
    (hk : jsTruthy p.cfg.key = true) (hne : toolCallsOf out1 ≠ [])
    (hnn : ∀ tc ∈ toolCallsOf out1, jsNullish tc = false) :
    (agentAfterFirst p net callsAcc out1).2 =
      callsAcc ++ (toolCallsOf out1).map (mkInvokeCall p.mcpUrl p.tenant) ++
        [NetCall.completion (p.cfg.base ++ "/v1/chat/completions")
          ("Bearer " ++ jsToString p.cfg.key)
          { model := if p.model = "" then "gpt-4o-mini" else p.model
            temperature := jsNumberOr p.temperature
            messages := p.messages ++ [assistantMsgOf out1] ++
              toolMsgsSpec net callsAcc.length (toolCallsOf out1)
            tools := none }] := by
  unfold agentAfterFirst
  dsimp only
  rw [if_neg hne]
  rw [toolLoop_no_null p.mcpUrl p.tenant net (toolCallsOf out1) hnn callsAcc.length]
  dsimp only
  cases h2 : openaiCompatChat p.cfg p.model p.temperature
      (p.messages ++ [assistantMsgOf out1] ++ toolMsgsSpec net callsAcc.length (toolCallsOf out1))
      none (net (callsAcc.length + ((toolCallsOf out1).map (mkInvokeCall p.mcpUrl p.tenant)).length)) with
  | mk c2 res2 =>
    have hc2 : c2 =
        [NetCall.completion (p.cfg.base ++ "/v1/chat/completions")
          ("Bearer " ++ jsToString p.cfg.key)
          { model := if p.model = "" then "gpt-4o-mini" else p.model
            temperature := jsNumberOr p.temperature
            messages := p.messages ++ [assistantMsgOf out1] ++
              toolMsgsSpec net callsAcc.length (toolCallsOf out1)
            tools := none }] := by
      have := openaiCompat_calls_of_key p.cfg p.model p.temperature
        (p.messages ++ [assistantMsgOf out1] ++ toolMsgsSpec net callsAcc.length (toolCallsOf out1))
        none (net (callsAcc.length + ((toolCallsOf out1).map (mkInvokeCall p.mcpUrl p.tenant)).length)) hk
      rw [h2] at this
      exact this
    cases res2 with
    | error e =>
      dsimp only
      rw [hc2]
    | ok out2 =>
      dsimp only
      rw [hc2]

set_option maxRecDepth 16384 in
/-- C1 counterexample: a first completion whose tool-call array starts
with a JSON `null` has tool calls, yet the turn issues only ONE
completion in total and ends in the route-level 500 — the unguarded
`tc.id` access aborts the loop before the follow-up completion. -/
theorem c1_counterexample :
    toolCallsOf wOutNullTc ≠ [] ∧
    jsonParse (wNetNullTc 0).text = some wOutNullTc ∧
    List.countP isCompletionCall (agentChat "" wSettings wParsed wNetNullTc).2 = 1 ∧
    (agentChat "" wSettings wParsed wNetNullTc).1.status = 500 := by decide

/-- C1 (amended): every chat turn issues at most two completion requests;
and when the first completion succeeds, reports tool calls and none of
the tool-call entries is nullish, the turn issues exactly one follow-up
completion carrying the full message sequence (prelude messages +
assistant message + tool-result messages in order) and no tool catalog,
after one broker invoke per tool call. -/
theorem c1_two_round_ceiling :
    (∀ mcpDefault s parsed net,
      List.countP isCompletionCall (agentChat mcpDefault s parsed net).2 ≤ 2) ∧
    (∀ (p : ChatPrelude) (net : Nat → FetchOut) (callsAcc : List NetCall) (out1 : JsValue),
      jsTruthy p.cfg.key = true → toolCallsOf out1 ≠ [] →
      (∀ tc ∈ toolCallsOf out1, jsNullish tc = false) →
      (agentAfterFirst p net callsAcc out1).2 =
        callsAcc ++ (toolCallsOf out1).map (mkInvokeCall p.mcpUrl p.tenant) ++
          [NetCall.completion (p.cfg.base ++ "/v1/chat/completions")
            ("Bearer " ++ jsToString p.cfg.key)
            { model := if p.model = "" then "gpt-4o-mini" else p.model
              temperature := jsNumberOr p.temperature
              messages := p.messages ++ [assistantMsgOf out1] ++
                toolMsgsSpec net callsAcc.length (toolCallsOf out1)
              tools := none }] ∧
      List.countP isCompletionCall (agentAfterFirst p net callsAcc out1).2 =
        List.countP isCompletionCall callsAcc + 1) := by
  constructor
  · intro mcpDefault s parsed net
    unfold agentChat
    cases hp : chatPrelude mcpDefault s parsed with
    | error r => exact Nat.zero_le 2
    | ok p =>
      dsimp only
      cases h1 : openaiCompatChat p.cfg p.model p.temperature p.messages
          (if (toolsPhase p net).2 = [] then none else some (toolsPhase p net).2)
          (net (toolsPhase p net).1.length) with
      | mk c1 res =>
        have hc1 : List.countP isCompletionCall c1 ≤ 1 := by
          have := openaiCompat_completion_count p.cfg p.model p.temperature p.messages
            (if (toolsPhase p net).2 = [] then none else some (toolsPhase p net).2)
            (net (toolsPhase p net).1.length)
          rw [h1] at this
          exact this
        have hph := toolsPhase_completion_count p net
        cases res with
        | error e =>
          dsimp only
          rw [List.countP_append, hph]
          omega
        | ok out1 =>
          dsimp only
          have hb := agentAfterFirst_completion_bound p net ((toolsPhase p net).1 ++ c1) out1
          rw [List.countP_append, hph] at hb
          omega
  · intro p net callsAcc out1 hk hne hnn
    have ht := agentAfterFirst_trace_no_null p net callsAcc out1 hk hne hnn
    refine ⟨ht, ?_⟩
    rw [ht, List.countP_append, List.countP_append,
      map_invoke_completion_count p.mcpUrl p.tenant (toolCallsOf out1)]
    rfl

/-- Witness for C1: a concrete two-round turn. -/
theorem c1_two_round_ceiling_witness :
    (agentAfterFirst wPrelude wNetZero [] wOutTc).2 =
      [] ++ (toolCallsOf wOutTc).map (mkInvokeCall wPrelude.mcpUrl wPrelude.tenant) ++
        [NetCall.completion (wPrelude.cfg.base ++ "/v1/chat/completions")
          ("Bearer " ++ jsToString wPrelude.cfg.key)
          { model := if wPrelude.model = "" then "gpt-4o-mini" else wPrelude.model
            temperature := jsNumberOr wPrelude.temperature
            messages := wPrelude.messages ++ [assistantMsgOf wOutTc] ++
              toolMsgsSpec wNetZero (List.length ([] : List NetCall)) (toolCallsOf wOutTc)
            tools := none }] ∧
    List.countP isCompletionCall (agentAfterFirst wPrelude wNetZero [] wOutTc).2 =
      List.countP isCompletionCall ([] : List NetCall) + 1 :=
  c1_two_round_ceiling.2 wPrelude wNetZero [] wOutTc (by decide) (by decide) (by decide)

set_option maxRecDepth 16384 in
/-- C7 counterexample: the second tool call's argument string is not
valid JSON, yet no broker invoke for it ever occurs and the turn fails
with 500, because the preceding `null` entry aborts the loop. -/
theorem c7_counterexample :
    jsonParse (jsToString (jsChain2 (jsIdxChain (jsGetU (assistantMsgOf wOutNullTc)
      "tool_calls") 1) "function" "arguments")) = none ∧
    List.countP (fun c => match c with
      | NetCall.brokerInvoke _ n _ _ => n = str "t"
      | _ => false) (agentChat "" wSettings wParsed wNetNullTc).2 = 0 ∧
    (agentChat "" wSettings wParsed wNetNullTc).1.status = 500 := by decide

/-- C7 (amended): a tool call whose non-empty argument string fails to
decode as JSON gets its arguments wrapped as `\x7braw: <original
string>\x7d`; and provided no tool-call entry of the round is nullish,
the broker invoke for every entry occurs and the follow-up completion is
still issued. -/
theorem c7_malformed_args_wrapped :
    (∀ (tc : JsValue) (a : String), jsChain2 tc "function" "arguments" = str a → a ≠ "" →
      jsonParse a = none → invokeArgsOf tc = obj [("raw", str a)]) ∧
    (∀ (p : ChatPrelude) (net : Nat → FetchOut) (callsAcc : List NetCall)
        (out1 tc : JsValue),
      jsTruthy p.cfg.key = true →
      (∀ x ∈ toolCallsOf out1, jsNullish x = false) → tc ∈ toolCallsOf out1 →
      mkInvokeCall p.mcpUrl p.tenant tc ∈ (agentAfterFirst p net callsAcc out1).2 ∧
      List.countP isCompletionCall (agentAfterFirst p net callsAcc out1).2 =
        List.countP isCompletionCall callsAcc + 1) := by
  constructor
  · intro tc a hc ha hp
    unfold invokeArgsOf
    rw [hc]
    dsimp only
    rw [show jsOr (str a) (str (lbraceStr ++ rbraceStr)) = str a from by
      simp [jsOr, jsTruthy, ha]]
    rw [show jsToString (str a) = a from rfl, hp]
  · intro p net callsAcc out1 tc hk hnn hmem
    have hne : toolCallsOf out1 ≠ [] := List.ne_nil_of_mem hmem
    have ht := agentAfterFirst_trace_no_null p net callsAcc out1 hk hne hnn
    constructor
    · rw [ht]
      exact List.mem_append.mpr (Or.inl (List.mem_append.mpr (Or.inr
        (List.mem_map.mpr ⟨tc, hmem, rfl⟩))))
    · rw [ht, List.countP_append, List.countP_append,
        map_invoke_completion_count p.mcpUrl p.tenant (toolCallsOf out1)]
      rfl

/-- Witness for C7: a concrete malformed argument string is wrapped. -/
theorem c7_malformed_args_wrapped_witness :
    invokeArgsOf (obj [("id", str "c1"), ("function", obj [("name", str "maximo.listOS"),
        ("arguments", str "not json")])]) = obj [("raw", str "not json")] :=
  c7_malformed_args_wrapped.1
    (obj [("id", str "c1"), ("function", obj [("name", str "maximo.listOS"),
      ("arguments", str "not json")])])
    "not json" (by decide) (by decide) (by decide)
